import Mathlib

/-!
# Verification of the 081-system order / inventory / shift core

Shallow embedding of `app/services/orders.py`, `app/services/inventory.py`
and `app/services/shift.py`.  Python `float` money and stock arithmetic is
modelled as exact rationals (`ℚ`); Python's `round(x, 2)` (round half to
even, to cents) is modelled by `round2`.  The ORM session is modelled as an
explicit `DB` record threaded through every operation; a raised
`HTTPException` is modelled as `Except.error`.
-/

namespace POS

/-- Round-half-to-even of a rational to an integer: the semantics of
Python's builtin `round` on exact values. -/
def pyRound (q : ℚ) : ℤ :=
  if q - ⌊q⌋ = 1/2 then (if ⌊q⌋ % 2 = 0 then ⌊q⌋ else ⌊q⌋ + 1) else round q

/-- Python's `round(q, 2)`: round to cents, half to even. -/
def round2 (q : ℚ) : ℚ := (pyRound (100 * q) : ℚ) / 100

/-- A rational is an exact number of cents. -/
def IsCents (q : ℚ) : Prop := ∃ n : ℤ, q = (n : ℚ) / 100

theorem pyRound_intCast (n : ℤ) : pyRound (n : ℚ) = n := by
  unfold pyRound
  rw [Int.floor_intCast]
  have h : (n : ℚ) - n = 0 := by ring
  rw [h]
  have h2 : (0 : ℚ) ≠ 1/2 := by norm_num
  rw [if_neg h2, round_intCast]

theorem round2_of_isCents {q : ℚ} (h : IsCents q) : round2 q = q := by
  obtain ⟨n, rfl⟩ := h
  unfold round2
  have h100 : (100 : ℚ) * ((n : ℚ) / 100) = (n : ℚ) := by
    field_simp
  rw [h100, pyRound_intCast]

theorem isCents_round2 (q : ℚ) : IsCents (round2 q) := ⟨pyRound (100 * q), rfl⟩

theorem isCents_add {a b : ℚ} (ha : IsCents a) (hb : IsCents b) : IsCents (a + b) := by
  obtain ⟨m, rfl⟩ := ha
  obtain ⟨n, rfl⟩ := hb
  exact ⟨m + n, by push_cast; ring⟩

theorem isCents_sub {a b : ℚ} (ha : IsCents a) (hb : IsCents b) : IsCents (a - b) := by
  obtain ⟨m, rfl⟩ := ha
  obtain ⟨n, rfl⟩ := hb
  exact ⟨m - n, by push_cast; ring⟩

/-- Floating tolerance used by the inventory service (`EPSILON = 1e-9`). -/
def EPSILON : ℚ := 1 / 1000000000

/-! ## Strings

Python strings are modelled as `List Char` (code-point lists), so that
`strip`, comparison and equality are all structurally computable. -/

/-- Python strings are modelled as lists of characters. -/
abbrev Str := List Char

/-- Literal helper: the character list of a Lean string literal. -/
def str (s : String) : Str := s.data

/-- Python `str.strip()`: drop whitespace from both ends. -/
def strip (s : Str) : Str :=
  ((s.dropWhile Char.isWhitespace).reverse.dropWhile Char.isWhitespace).reverse

/-- Python `<` on strings: lexicographic comparison by code point. -/
def strLtB : Str → Str → Bool
  | [], [] => false
  | [], _ :: _ => true
  | _ :: _, [] => false
  | a :: as, b :: bs =>
      if a.toNat < b.toNat then true
      else if b.toNat < a.toNat then false
      else strLtB as bs

/-- Python `<=` on strings (total order, so `a <= b ↔ ¬ b < a`). -/
def strLeB (a b : Str) : Bool := ! strLtB b a

/-! ## Data model (`app/models.py`, `app/schemas.py`) -/

/-- `MovementType` enum from `app/schemas.py`. -/
inductive MovementType
  | purchase
  | adjustment
  | waste
  | usage
deriving DecidableEq

/-- `OrderStatus` enum from `app/schemas.py`. -/
inductive OrderStatus
  | pending
  | preparing
  | ready
  | completed
  | cancelled
deriving DecidableEq

/-- `PaymentStatus` enum from `app/schemas.py`. -/
inductive PaymentStatus
  | unpaid
  | paid
  | refunded
deriving DecidableEq

/-- `MenuItem` row. -/
structure MenuItem where
  id : ℕ
  name : Str
  price : ℚ
  is_active : Bool
deriving DecidableEq

/-- `Ingredient` row. -/
structure Ingredient where
  id : ℕ
  name : Str
  unit : Str
  current_stock : ℚ
  reorder_level : ℚ
  cost_per_unit : ℚ
deriving DecidableEq

/-- `RecipeLine` row. -/
structure RecipeLine where
  menu_item_id : ℕ
  ingredient_id : ℕ
  quantity : ℚ
deriving DecidableEq

/-- `StockMovement` row (timestamps and surrogate ids omitted). -/
structure StockMovement where
  ingredient_id : ℕ
  movement_type : MovementType
  quantity : ℚ
  unit_cost : Option ℚ
  reference : Option Str
  notes : Option Str
deriving DecidableEq

/-- `OrderItem` row. -/
structure OrderItem where
  menu_item_id : ℕ
  menu_item_name : Str
  quantity : ℕ
  unit_price : ℚ
  line_total : ℚ
  note : Option Str
deriving DecidableEq

/-- `Order` row.  Nullable timestamps (`inventory_deducted_at`, `paid_at`,
`completed_at`) are modelled by their presence flags, which is all the
services ever read of them. -/
structure Order where
  order_number : Str
  status : OrderStatus
  payment_status : PaymentStatus
  payment_method : Option Str
  total_amount : ℚ
  inventory_deducted : Bool
  has_paid_at : Bool
  has_completed_at : Bool
  items : List OrderItem
deriving DecidableEq

/-- `ComboRule` row together with its eligible-drink link rows. -/
structure ComboRule where
  id : ℕ
  code : Str
  bundle_price : ℚ
  drink_choice_count : ℕ
  side_choice_count : ℕ
  is_active : Bool
  eligible_drink_ids : List ℕ
deriving DecidableEq

/-- The relational state touched by the order/inventory core, standing in
for the ORM session plus the underlying tables. -/
structure DB where
  menu : List MenuItem
  recipes : List RecipeLine
  ingredients : List Ingredient
  movements : List StockMovement
  combos : List ComboRule
  orders : List Order
deriving DecidableEq

/-- `db.get(MenuItem, i)`: lookup by primary key. -/
def getMenuItem (db : DB) (i : ℕ) : Option MenuItem :=
  db.menu.find? (fun m => m.id == i)

/-- `db.get(Ingredient, i)`: lookup by primary key. -/
def getIngredient (db : DB) (i : ℕ) : Option Ingredient :=
  db.ingredients.find? (fun ing => ing.id == i)

/-- Current stock of the ingredient with primary key `i`, if present. -/
def stockOf (db : DB) (i : ℕ) : Option ℚ :=
  (getIngredient db i).map (·.current_stock)

/-! ## Inventory service (`app/services/inventory.py`) -/

/-- Errors raised as `HTTPException` by the services. -/
structure Shortage where
  ingredient_name : Str
  current_stock : ℚ
  required : ℚ
  unit : Str
deriving DecidableEq

/-- A row of the low-stock report built by `_get_low_stock_rows`. -/
structure LowStockRow where
  ingredient_name : Str
  current_stock : ℚ
  reorder_level : ℚ
  unit : Str
deriving DecidableEq

/-- The `HTTPException`s raised by the order/inventory/shift services. -/
inductive SvcError
  | ingredientNotFound
  | unsupportedMovementType
  | insufficientStock
  | insufficientInventory (shortages : List Shortage)
  | comboUnavailable
  | invalidSelectionCount
  | invalidDrinkSelection
  | unknownComboItem
  | inactiveComboItem
  | emptyComboSelection
  | menuItemUnavailable (menu_item_id : ℕ)
  | emptyOrder
  | orderLocked
  | invalidTransition
  | noOpenShift
deriving DecidableEq

instance {ε α : Type _} [DecidableEq ε] [DecidableEq α] : DecidableEq (Except ε α) :=
  fun x y =>
    match x, y with
    | .ok a, .ok b =>
        if h : a = b then isTrue (by rw [h])
        else isFalse (fun hh => h (Except.ok.inj hh))
    | .error e, .error f =>
        if h : e = f then isTrue (by rw [h])
        else isFalse (fun hh => h (Except.error.inj hh))
    | .ok _, .error _ => isFalse (fun hh => Except.noConfusion hh)
    | .error _, .ok _ => isFalse (fun hh => Except.noConfusion hh)

/-- Effect of one `create_movement` call on one ingredient row: the row
matching the movement's `ingredient_id` gets `current_stock += quantity`
and, when `unit_cost` is given and nonnegative, `cost_per_unit` updated. -/
def applyMovTo (m : StockMovement) (ing : Ingredient) : Ingredient :=
  if ing.id = m.ingredient_id then
    { ing with
      current_stock := ing.current_stock + m.quantity
      cost_per_unit :=
        match m.unit_cost with
        | some c => if 0 ≤ c then c else ing.cost_per_unit
        | none => ing.cost_per_unit }
  else ing

/-- `create_movement`: append the movement row and atomically adjust the
ingredient's running stock (and possibly its `cost_per_unit`). -/
def create_movement (db : DB) (m : StockMovement) : DB :=
  { db with
    movements := db.movements ++ [m]
    ingredients := db.ingredients.map (applyMovTo m) }

/-- A sequence of `create_movement` calls, as performed by the loops in
`deduct_inventory_for_order`, `restore_inventory_for_cancelled_order` and
`adjust_inventory_for_amended_order`. -/
def applyMovs (db : DB) (ms : List StockMovement) : DB :=
  ms.foldl create_movement db

/-- `_get_low_stock_rows`: every ingredient at or below its reorder level. -/
def low_stock_rows (db : DB) : List LowStockRow :=
  (db.ingredients.filter (fun i => i.current_stock ≤ i.reorder_level)).map
    (fun i =>
      { ingredient_name := i.name
        current_stock := round2 i.current_stock
        reorder_level := round2 i.reorder_level
        unit := i.unit })

/-- Insertion-ordered accumulation into the `required_by_ingredient` dict:
add `q` to the entry keyed `k`, appending a new entry if absent. -/
def addReq : List (ℕ × ℚ) → ℕ → ℚ → List (ℕ × ℚ)
  | [], k, q => [(k, q)]
  | (k', q') :: rest, k, q =>
      if k' = k then (k', q' + q) :: rest
      else (k', q') :: addReq rest k q

/-- Python `reqs.get(k, {}).get("required_qty", 0.0)`. -/
def reqOf (reqs : List (ℕ × ℚ)) (k : ℕ) : ℚ :=
  match reqs.find? (fun p => p.1 == k) with
  | some p => p.2
  | none => 0

/-- `_collect_requirements_for_lines`: resolve each `(menu_item_id,
quantity)` line through the recipe table, summing required quantity per
ingredient.  Unknown menu items and ingredients are silently skipped. -/
def collect_requirements_for_lines (db : DB) (lines : List (ℕ × ℕ)) : List (ℕ × ℚ) :=
  lines.foldl
    (fun acc line =>
      match getMenuItem db line.1 with
      | none => acc
      | some mi =>
          (db.recipes.filter (fun r => r.menu_item_id == mi.id)).foldl
            (fun acc2 r =>
              match getIngredient db r.ingredient_id with
              | none => acc2
              | some ing => addReq acc2 ing.id (r.quantity * (line.2 : ℚ)))
            acc)
    []

/-- `_collect_order_requirements`. -/
def collect_order_requirements (db : DB) (order : Order) : List (ℕ × ℚ) :=
  collect_requirements_for_lines db
    (order.items.map (fun it => (it.menu_item_id, it.quantity)))

/-- The shortage list built by `_validate_requirements`.  (In the source the
ingredient object is stored in the requirements dict; since the session is
unchanged between collection and validation, looking it up again by id is
the same row.) -/
def shortage_rows (db : DB) (reqs : List (ℕ × ℚ)) : List Shortage :=
  reqs.filterMap (fun p =>
    match getIngredient db p.1 with
    | none => none
    | some ing =>
        if ing.current_stock + EPSILON < p.2 then
          some
            { ingredient_name := ing.name
              current_stock := round2 ing.current_stock
              required := round2 p.2
              unit := ing.unit }
        else none)

/-- `apply_manual_movement`: sign normalisation by movement type, the
non-negative-stock guard of `_ensure_non_negative_stock`, then
`create_movement`. -/
def apply_manual_movement (db : DB) (ingredient_id : ℕ) (movement_type : MovementType)
    (quantity : ℚ) (unit_cost : Option ℚ) (reference : Option Str)
    (notes : Option Str) : Except SvcError DB :=
  match getIngredient db ingredient_id with
  | none => .error .ingredientNotFound
  | some ing =>
      let delta? : Option ℚ :=
        match movement_type with
        | .purchase => some |quantity|
        | .waste => some (-|quantity|)
        | .adjustment => some quantity
        | .usage => none
      match delta? with
      | none => .error .unsupportedMovementType
      | some delta =>
          if ing.current_stock + delta < -EPSILON then .error .insufficientStock
          else
            .ok (create_movement db
              { ingredient_id := ing.id
                movement_type := movement_type
                quantity := delta
                unit_cost := unit_cost
                reference := reference
                notes := notes })

/-- The `usage` movements created by the success loop of
`deduct_inventory_for_order`. -/
def usage_movements (order_number : Str) (reqs : List (ℕ × ℚ)) : List StockMovement :=
  reqs.map (fun p =>
    { ingredient_id := p.1
      movement_type := .usage
      quantity := -p.2
      unit_cost := none
      reference := some (str "ORDER:" ++ order_number)
      notes := none })

/-- `deduct_inventory_for_order`: no-op when already deducted, otherwise
validate all requirements and emit one `usage` movement per ingredient.
(The row-locking and `db.refresh` calls are no-ops in this sequential
model.) -/
def deduct_inventory_for_order (db : DB) (order : Order) :
    Except SvcError (DB × Order × List LowStockRow) :=
  if order.inventory_deducted then .ok (db, order, low_stock_rows db)
  else
    let reqs := collect_order_requirements db order
    let shortages := shortage_rows db reqs
    if shortages ≠ [] then .error (.insufficientInventory shortages)
    else
      let db' := applyMovs db (usage_movements order.order_number reqs)
      .ok (db', { order with inventory_deducted := true }, low_stock_rows db')

/-- The `adjustment` movements created by the restore loop of
`restore_inventory_for_cancelled_order`. -/
def restore_movements (order_number : Str) (reqs : List (ℕ × ℚ)) : List StockMovement :=
  reqs.map (fun p =>
    { ingredient_id := p.1
      movement_type := .adjustment
      quantity := p.2
      unit_cost := none
      reference := some (str "CANCEL:" ++ order_number)
      notes := some (str "Auto-restored due to order cancellation") })

/-- `restore_inventory_for_cancelled_order`: no-op if never deducted or if a
movement with reference `CANCEL:<order_number>` already exists; otherwise
recompute requirements and return the stock. -/
def restore_inventory_for_cancelled_order (db : DB) (order : Order) :
    DB × List LowStockRow :=
  if ¬ order.inventory_deducted then (db, low_stock_rows db)
  else
    let ref := str "CANCEL:" ++ order.order_number
    if 0 < (db.movements.filter (fun m => m.reference == some ref)).length then
      (db, low_stock_rows db)
    else
      let reqs := collect_order_requirements db order
      let db' := applyMovs db (restore_movements order.order_number reqs)
      (db', low_stock_rows db')

/-- `sorted(set(previous) | set(next))`: ascending list of the distinct
ingredient ids of both requirement dicts. -/
def sortedUnionKeys (a b : List ℕ) : List ℕ :=
  ((a ++ b).dedup).insertionSort (· ≤ ·)

/-- The shortage list of `adjust_inventory_for_amended_order`: only an
increase (`delta > EPSILON`) is validated against current stock. -/
def amend_shortages (db : DB) (ids : List ℕ) (prevR nextR : List (ℕ × ℚ)) :
    List Shortage :=
  ids.filterMap (fun i =>
    match getIngredient db i with
    | none => none
    | some ing =>
        let inc := reqOf nextR i - reqOf prevR i
        if EPSILON < inc ∧ ing.current_stock + EPSILON < inc then
          some
            { ingredient_name := ing.name
              current_stock := round2 ing.current_stock
              required := round2 inc
              unit := ing.unit }
        else none)

/-- The movements emitted by the adjustment loop of
`adjust_inventory_for_amended_order`: `usage` of `-delta` for an increase,
`adjustment` of `-delta` (positive) for a decrease, nothing within the
epsilon band. -/
def amend_movements (order_number : Str) (ids : List ℕ)
    (prevR nextR : List (ℕ × ℚ)) : List StockMovement :=
  ids.filterMap (fun i =>
    let delta := reqOf nextR i - reqOf prevR i
    if EPSILON < delta then
      some
        { ingredient_id := i
          movement_type := .usage
          quantity := -delta
          unit_cost := none
          reference := some (str "AMEND:" ++ order_number)
          notes := some (str "Auto-adjusted due to order amendment") }
    else if delta < -EPSILON then
      some
        { ingredient_id := i
          movement_type := .adjustment
          quantity := -delta
          unit_cost := none
          reference := some (str "AMEND:" ++ order_number)
          notes := some (str "Auto-restored due to order amendment") }
    else none)

/-- `adjust_inventory_for_amended_order`: no-op if never deducted; compute
per-ingredient requirement deltas between the previous and next item sets,
validate only the increases, then emit the delta movements. -/
def adjust_inventory_for_amended_order (db : DB) (order : Order)
    (previous_items next_items : List (ℕ × ℕ)) :
    Except SvcError (DB × List LowStockRow) :=
  if ¬ order.inventory_deducted then .ok (db, low_stock_rows db)
  else
    let prevR := collect_requirements_for_lines db previous_items
    let nextR := collect_requirements_for_lines db next_items
    let ids := sortedUnionKeys (prevR.map Prod.fst) (nextR.map Prod.fst)
    let shortages := amend_shortages db ids prevR nextR
    if shortages ≠ [] then .error (.insufficientInventory shortages)
    else
      let db' := applyMovs db (amend_movements order.order_number ids prevR nextR)
      .ok (db', low_stock_rows db')

/-! ## Combo pricing engine (`_allocate_weighted_line_totals`,
`_build_combo_order_lines` in `app/services/orders.py`) -/

/-- The loop over `weighted_keys[:-1]`: all but the last key get a
proportionally rounded share, the running remainder is re-rounded after
each subtraction, and the last key receives the remainder. -/
def allocLoop (total base : ℚ) : ℚ → List (ℕ × ℚ) → List (ℕ × ℚ)
  | _, [] => []
  | remaining, [kw] => [(kw.1, remaining)]
  | remaining, kw :: kw2 :: rest =>
      let share := round2 (total * (kw.2 / base))
      (kw.1, share) :: allocLoop total base (round2 (remaining - share)) (kw2 :: rest)

/-- `_allocate_weighted_line_totals`: weighted proportional allocation with
the remainder on the last key; when the weight sum is not positive, every
key gets the same `round(total / n, 2)` even split. -/
def allocate_weighted_line_totals (total_amount : ℚ)
    (weighted_keys : List (ℕ × ℚ)) : List (ℕ × ℚ) :=
  if weighted_keys = [] then []
  else
    let base_sum := (weighted_keys.map Prod.snd).sum
    if base_sum ≤ 0 then
      let per_line := round2 (total_amount / (weighted_keys.length : ℚ))
      weighted_keys.map (fun kw => (kw.1, per_line))
    else allocLoop total_amount base_sum (round2 total_amount) weighted_keys

/-- One step of Python's `Counter`: bump the count of `x`, appending a new
entry on first occurrence (dict insertion order). -/
def addCount : List (ℕ × ℕ) → ℕ → List (ℕ × ℕ)
  | [], x => [(x, 1)]
  | (k, c) :: rest, x =>
      if k = x then (k, c + 1) :: rest else (k, c) :: addCount rest x

/-- `Counter(component_ids)` as an insertion-ordered association list. -/
def counterOf (l : List ℕ) : List (ℕ × ℕ) := l.foldl addCount []

/-- `OrderComboCreate` request schema. -/
structure OrderComboCreate where
  combo_id : ℕ
  quantity : ℕ
  drink_item_ids : List ℕ
  side_item_ids : List ℕ
deriving DecidableEq

/-- The line dicts built by `create_order` and `_build_combo_order_lines`. -/
structure LineDict where
  menu_item_id : ℕ
  menu_item_name : Str
  quantity : ℕ
  unit_price : ℚ
  line_total : ℚ
  note : Option Str
deriving DecidableEq

/-- Combo lookup by primary key. -/
def getCombo (db : DB) (i : ℕ) : Option ComboRule :=
  db.combos.find? (fun c => c.id == i)

/-- Catalog price of a menu item (`menu_by_id[item_id].price`; the caller
has already validated presence). -/
def priceOf (db : DB) (i : ℕ) : ℚ :=
  match getMenuItem db i with
  | some mi => mi.price
  | none => 0

/-- Catalog name of a menu item (`menu_by_id[item_id].name`). -/
def nameOf (db : DB) (i : ℕ) : Str :=
  match getMenuItem db i with
  | some mi => mi.name
  | none => []

/-- `line_counts`: per-set component counts times the combo quantity, in
`Counter` insertion order. -/
def combo_line_counts (combo_input : OrderComboCreate) : List (ℕ × ℕ) :=
  (counterOf (combo_input.drink_item_ids ++ combo_input.side_item_ids)).map
    (fun p => (p.1, p.2 * combo_input.quantity))

/-- `weighted_keys`: each distinct component weighted by
`catalog price * item quantity`. -/
def combo_weighted_keys (db : DB) (combo_input : OrderComboCreate) : List (ℕ × ℚ) :=
  (combo_line_counts combo_input).map (fun p => (p.1, priceOf db p.1 * (p.2 : ℚ)))

/-- `_build_combo_order_lines`: validate the selection, expand per-set
component counts by the combo quantity, allocate the rounded bundle total
across the distinct components by `catalog price * item quantity` weights,
and emit one tagged line per distinct component. -/
def build_combo_order_lines (db : DB) (combo_input : OrderComboCreate) :
    Except SvcError (List LineDict) :=
  match getCombo db combo_input.combo_id with
  | none => .error .comboUnavailable
  | some combo =>
    if ¬ combo.is_active then .error .comboUnavailable
    else
    let drink_ids := combo_input.drink_item_ids
    let side_ids := combo_input.side_item_ids
    if drink_ids.length ≠ combo.drink_choice_count then .error .invalidSelectionCount
    else if side_ids.length ≠ combo.side_choice_count then .error .invalidSelectionCount
    else if drink_ids.filter (fun i => ¬ i ∈ combo.eligible_drink_ids) ≠ [] then
      .error .invalidDrinkSelection
    else
    let component_ids := drink_ids ++ side_ids
    if component_ids = [] then .error .emptyComboSelection
    else if component_ids.filter (fun i => (getMenuItem db i).isNone) ≠ [] then
      .error .unknownComboItem
    else if component_ids.filter (fun i =>
        match getMenuItem db i with
        | some mi => ¬ mi.is_active
        | none => false) ≠ [] then
      .error .inactiveComboItem
    else
    let line_totals := allocate_weighted_line_totals
      (round2 (combo.bundle_price * (combo_input.quantity : ℚ)))
      (combo_weighted_keys db combo_input)
    .ok ((combo_line_counts combo_input).map (fun p =>
      let line_total := round2 (reqOf line_totals p.1)
      { menu_item_id := p.1
        menu_item_name := nameOf db p.1
        quantity := p.2
        unit_price := round2 (line_total / (p.2 : ℚ))
        line_total := line_total
        note := some (str "[COMBO:" ++ combo.code ++ str "]") }))

/-! ## Order lifecycle (`app/services/orders.py`) -/

/-- `OrderItemCreate` / `OrderAmendItemIn` request schema (same shape). -/
structure OrderItemCreate where
  menu_item_id : ℕ
  quantity : ℕ
  note : Option Str
deriving DecidableEq

/-- `OrderCreate` request schema (`source` omitted: never read by the
claimed logic). -/
structure OrderCreate where
  auto_pay : Bool
  payment_method : Str
  items : List OrderItemCreate
  combos : List OrderComboCreate
deriving DecidableEq

/-- The direct-item pricing loop of `create_order`: each item priced at
current catalog price, rejecting unknown or inactive menu items. -/
def build_direct_lines (db : DB) : List OrderItemCreate → Except SvcError (List LineDict)
  | [] => .ok []
  | it :: rest =>
      match getMenuItem db it.menu_item_id with
      | none => .error (.menuItemUnavailable it.menu_item_id)
      | some mi =>
          if ¬ mi.is_active then .error (.menuItemUnavailable it.menu_item_id)
          else
            (build_direct_lines db rest).map (fun ls =>
              { menu_item_id := mi.id
                menu_item_name := mi.name
                quantity := it.quantity
                unit_price := mi.price
                line_total := round2 (mi.price * (it.quantity : ℚ))
                note := it.note } :: ls)

/-- The combo-expansion loop of `create_order`. -/
def build_all_combo_lines (db : DB) : List OrderComboCreate → Except SvcError (List LineDict)
  | [] => .ok []
  | c :: rest =>
      match build_combo_order_lines db c with
      | .error e => .error e
      | .ok ls =>
          match build_all_combo_lines db rest with
          | .error e => .error e
          | .ok rest' => .ok (ls ++ rest')

/-- `pay_order`: immediate empty return when already paid; otherwise set
payment method (when given and truthy), mark paid, and deduct inventory. -/
def pay_order (db : DB) (order : Order) (payment_method : Option Str) :
    Except SvcError (DB × Order × List LowStockRow) :=
  if order.payment_status = .paid then .ok (db, order, [])
  else
    let order1 :=
      match payment_method with
      | some pm => if pm ≠ [] then { order with payment_method := some pm } else order
      | none => order
    deduct_inventory_for_order db
      { order1 with payment_status := .paid, has_paid_at := true }

/-- `create_order`: price direct items, expand combos, reject an empty
line set, total the lines, then auto-pay when requested.  The order number
comes from the caller (the timestamp+random generator with uniqueness
retry is outside the claimed logic).  On success the committed state holds
the final order row; an error aborts the enclosing transaction. -/
def create_order (db : DB) (payload : OrderCreate) (order_number : Str) :
    Except SvcError (DB × Order × List LowStockRow) :=
  match build_direct_lines db payload.items with
  | .error e => .error e
  | .ok direct =>
  match build_all_combo_lines db payload.combos with
  | .error e => .error e
  | .ok comboLines =>
  let lines := direct ++ comboLines
  if lines = [] then .error .emptyOrder
  else
    let order : Order :=
      { order_number := order_number
        status := .pending
        payment_status := .unpaid
        payment_method := some payload.payment_method
        total_amount := round2 ((lines.map (·.line_total)).sum)
        inventory_deducted := false
        has_paid_at := false
        has_completed_at := false
        items := lines.map (fun l =>
          { menu_item_id := l.menu_item_id
            menu_item_name := l.menu_item_name
            quantity := l.quantity
            unit_price := l.unit_price
            line_total := l.line_total
            note := l.note }) }
    if payload.auto_pay then
      match pay_order db order none with
      | .error e => .error e
      | .ok (db', order', low) =>
          .ok ({ db' with orders := db'.orders ++ [order'] }, order', low)
    else .ok ({ db with orders := db.orders ++ [order] }, order, [])

/-- The HTTP handler's transaction bracket around `create_order`
(`try: ...; db.commit() except: db.rollback(); raise`): an error leaves
the committed state untouched. -/
def create_order_txn (db : DB) (payload : OrderCreate) (order_number : Str) :
    DB × Except SvcError (Order × List LowStockRow) :=
  match create_order db payload order_number with
  | .ok (db', o, low) => (db', .ok (o, low))
  | .error e => (db, .error e)

/-- `_normalize_note`: trim; an empty or whitespace-only note becomes
`None`. -/
def normalize_note : Option Str → Option Str
  | none => none
  | some s => let cleaned := strip s; if cleaned = [] then none else some cleaned

/-- The aggregated line dicts built by `_build_amended_lines` (no
`line_total` yet; that is computed by `_replace_order_items`). -/
structure AmendLine where
  menu_item_id : ℕ
  menu_item_name : Str
  quantity : ℕ
  unit_price : ℚ
  note : Option Str
deriving DecidableEq

/-- Aggregation step of `_build_amended_lines`: add the quantity to the
entry keyed `(menu item id, normalized note)`, inserting at the end on
first occurrence. -/
def upsertAmend : List AmendLine → MenuItem → Option Str → ℕ → List AmendLine
  | [], mi, note, qty =>
      [{ menu_item_id := mi.id
         menu_item_name := mi.name
         quantity := qty
         unit_price := mi.price
         note := note }]
  | l :: rest, mi, note, qty =>
      if l.menu_item_id = mi.id ∧ l.note = note then
        { l with quantity := l.quantity + qty } :: rest
      else l :: upsertAmend rest mi note qty

/-- The sort key of `_build_amended_lines`:
`(menu_item_name, menu_item_id, note or "")`, lexicographically. -/
def amendLineLe (a b : AmendLine) : Bool :=
  if a.menu_item_name ≠ b.menu_item_name then strLtB a.menu_item_name b.menu_item_name
  else if a.menu_item_id ≠ b.menu_item_id then a.menu_item_id < b.menu_item_id
  else strLeB (a.note.getD []) (b.note.getD [])

/-- The aggregation loop of `_build_amended_lines`. -/
def build_amended_lines_aux (db : DB) :
    List OrderItemCreate → List AmendLine → Except SvcError (List AmendLine)
  | [], acc => .ok acc
  | it :: rest, acc =>
      match getMenuItem db it.menu_item_id with
      | none => .error (.menuItemUnavailable it.menu_item_id)
      | some mi =>
          if ¬ mi.is_active then .error (.menuItemUnavailable it.menu_item_id)
          else
            build_amended_lines_aux db rest
              (upsertAmend acc mi (normalize_note it.note) it.quantity)

/-- `_build_amended_lines`: aggregate the requested items by
`(menu item, normalized note)` at current catalog prices, sorted by
`(name, id, note)`. -/
def build_amended_lines (db : DB) (items : List OrderItemCreate) :
    Except SvcError (List AmendLine) :=
  (build_amended_lines_aux db items []).map
    (fun acc => acc.insertionSort (fun a b => amendLineLe a b = true))

/-- A value of the snapshot dicts of `_snapshot_order_items` /
`_snapshot_amended_lines`. -/
structure SnapLine where
  menu_item_id : ℕ
  menu_item_name : Str
  quantity : ℕ
  note : Option Str
deriving DecidableEq

/-- Accumulation step of `_snapshot_order_items`: sum quantities under the
key, keeping the first occurrence's name. -/
def snapAdd : List ((ℕ × Option Str) × SnapLine) → (ℕ × Option Str) → Str → ℕ →
    List ((ℕ × Option Str) × SnapLine)
  | [], key, name, qty =>
      [(key, { menu_item_id := key.1, menu_item_name := name, quantity := qty, note := key.2 })]
  | (k, v) :: rest, key, name, qty =>
      if k = key then (k, { v with quantity := v.quantity + qty }) :: rest
      else (k, v) :: snapAdd rest key name qty

/-- `_snapshot_order_items`. -/
def snapshot_order_items (items : List OrderItem) : List ((ℕ × Option Str) × SnapLine) :=
  items.foldl
    (fun acc it =>
      snapAdd acc (it.menu_item_id, normalize_note it.note) it.menu_item_name it.quantity)
    []

/-- Dict-comprehension insertion: replace the value in place, or append. -/
def snapPut : List ((ℕ × Option Str) × SnapLine) → (ℕ × Option Str) → SnapLine →
    List ((ℕ × Option Str) × SnapLine)
  | [], k, v => [(k, v)]
  | (k', v') :: rest, k, v =>
      if k' = k then (k', v) :: rest else (k', v') :: snapPut rest k v

/-- `_snapshot_amended_lines`. -/
def snapshot_amended_lines (lines : List AmendLine) : List ((ℕ × Option Str) × SnapLine) :=
  lines.foldl
    (fun acc l =>
      snapPut acc (l.menu_item_id, normalize_note l.note)
        { menu_item_id := l.menu_item_id
          menu_item_name := l.menu_item_name
          quantity := l.quantity
          note := normalize_note l.note })
    []

/-- One `added`/`removed` diff row. -/
structure OrderDiffLine where
  menu_item_name : Str
  quantity : ℕ
  note : Option Str
deriving DecidableEq

/-- One `quantity_changed` diff row. -/
structure OrderDiffQtyLine where
  menu_item_name : Str
  before_quantity : ℕ
  after_quantity : ℕ
  note : Option Str
deriving DecidableEq

/-- `OrderDiffOut`. -/
structure OrderDiffOut where
  added : List OrderDiffLine
  removed : List OrderDiffLine
  quantity_changed : List OrderDiffQtyLine
deriving DecidableEq

/-- Snapshot-dict lookup. -/
def snapFind (l : List ((ℕ × Option Str) × SnapLine)) (k : ℕ × Option Str) :
    Option SnapLine :=
  (l.find? (fun p => p.1 == k)).map Prod.snd

/-- The diff key order of `_build_order_diff`: `(item id, note or "")`. -/
def diffKeyLe (a b : ℕ × Option Str) : Bool :=
  if a.1 ≠ b.1 then a.1 < b.1 else strLeB (a.2.getD []) (b.2.getD [])

/-- `_build_order_diff`: classify every key of either snapshot as added,
removed or quantity-changed. -/
def build_order_diff (before after : List ((ℕ × Option Str) × SnapLine)) : OrderDiffOut :=
  let keys := ((before.map Prod.fst ++ after.map Prod.fst).dedup).insertionSort
    (fun a b => diffKeyLe a b = true)
  keys.foldl
    (fun acc key =>
      match snapFind before key, snapFind after key with
      | none, some a =>
          { acc with added := acc.added ++ [⟨a.menu_item_name, a.quantity, a.note⟩] }
      | some b, none =>
          { acc with removed := acc.removed ++ [⟨b.menu_item_name, b.quantity, b.note⟩] }
      | some b, some a =>
          if b.quantity ≠ a.quantity then
            { acc with quantity_changed :=
                acc.quantity_changed ++ [⟨a.menu_item_name, b.quantity, a.quantity, a.note⟩] }
          else acc
      | none, none => acc)
    ⟨[], [], []⟩

/-- `_replace_order_items`: replace the item collection with the amended
lines, each `line_total = unit_price * quantity`, and recompute
`total_amount`. -/
def replace_order_items (order : Order) (lines : List AmendLine) : Order :=
  let items : List OrderItem := lines.map (fun l =>
    { menu_item_id := l.menu_item_id
      menu_item_name := l.menu_item_name
      quantity := l.quantity
      unit_price := l.unit_price
      line_total := l.unit_price * (l.quantity : ℚ)
      note := l.note })
  { order with
    items := items
    total_amount := round2 ((items.map (·.line_total)).sum) }

/-- `amend_order`: locked on terminal states; empty diff is a complete
no-op; otherwise adjust inventory by the delta and replace the lines. -/
def amend_order (db : DB) (order : Order) (payload : List OrderItemCreate) :
    Except SvcError (DB × Order × OrderDiffOut × List LowStockRow) :=
  if order.status = .completed ∨ order.status = .cancelled then .error .orderLocked
  else
    match build_amended_lines db payload with
    | .error e => .error e
    | .ok amended_lines =>
    let existing_snapshot := snapshot_order_items order.items
    let amended_snapshot := snapshot_amended_lines amended_lines
    let diff := build_order_diff existing_snapshot amended_snapshot
    if diff.added = [] ∧ diff.removed = [] ∧ diff.quantity_changed = [] then
      .ok (db, order, diff, [])
    else
      match adjust_inventory_for_amended_order db order
          (order.items.map (fun it => (it.menu_item_id, it.quantity)))
          (amended_lines.map (fun l => (l.menu_item_id, l.quantity))) with
      | .error e => .error e
      | .ok (db', low) => .ok (db', replace_order_items order amended_lines, diff, low)

/-- The transition table of `update_order_status`. -/
def valid_transitions (s : OrderStatus) : List OrderStatus :=
  match s with
  | .pending => [.preparing, .cancelled]
  | .preparing => [.ready, .cancelled]
  | .ready => [.completed]
  | .completed => []
  | .cancelled => []

/-- `update_order_status`: reject unless the target is an allowed
transition or equals the current status; stamp `completed_at` on
completion; trigger the idempotent restore on cancellation. -/
def update_order_status (db : DB) (order : Order) (next_status : OrderStatus) :
    Except SvcError (DB × Order) :=
  if ¬ next_status ∈ valid_transitions order.status ∧ next_status ≠ order.status then
    .error .invalidTransition
  else
    let order1 := { order with status := next_status }
    let order2 :=
      if next_status = .completed then { order1 with has_completed_at := true } else order1
    if next_status = .cancelled then
      .ok ((restore_inventory_for_cancelled_order db order2).1, order2)
    else .ok (db, order2)

/-! ## Shift reconciliation (`app/services/shift.py`) -/

/-- `ShiftSession` row; times are abstract ticks (`ℕ`). -/
structure ShiftSession where
  shift_name : Str
  status : Str
  opening_cash : ℚ
  expected_cash : ℚ
  actual_cash : Option ℚ
  cash_difference : Option ℚ
  paid_order_count : ℕ
  total_revenue : ℚ
  cash_revenue : ℚ
  non_cash_revenue : ℚ
  refund_amount : ℚ
  opened_at : ℕ
  closed_at : Option ℕ
  notes : Option Str
deriving DecidableEq

/-- The projection of an `Order` row read by `close_shift`. -/
structure OrdRow where
  payment_status : PaymentStatus
  payment_method : Option Str
  total_amount : ℚ
  paid_at : Option ℕ
  updated_at : ℕ
deriving DecidableEq

/-- `get_open_shift`: the open shift with the latest `opened_at`. -/
def get_open_shift (shifts : List ShiftSession) : Option ShiftSession :=
  ((shifts.filter (fun s => s.status == str "open")).insertionSort
      (fun a b => b.opened_at ≤ a.opened_at)).head?

/-- `close_shift`: aggregate the paid orders with `paid_at` in
`[opened_at, now]` and the refunded orders with `updated_at` in that
window into the cash-drawer summary, all monetary fields rounded to
cents. -/
def close_shift (shifts : List ShiftSession) (orders : List OrdRow) (now : ℕ)
    (actual_cash_input : ℚ) (notes_input : Option Str) :
    Except SvcError ShiftSession :=
  match get_open_shift shifts with
  | none => .error .noOpenShift
  | some row =>
      let paid_orders := orders.filter (fun o =>
        match o.paid_at with
        | none => false
        | some t => row.opened_at ≤ t && t ≤ now && o.payment_status == .paid)
      let refunded_orders := orders.filter (fun o =>
        row.opened_at ≤ o.updated_at && o.updated_at ≤ now
          && o.payment_status == .refunded)
      let total_revenue := round2 ((paid_orders.map (·.total_amount)).sum)
      let cash_revenue := round2
        (((paid_orders.filter (fun o => o.payment_method == some (str "cash"))).map
          (·.total_amount)).sum)
      let non_cash_revenue := round2 (total_revenue - cash_revenue)
      let refund_amount := round2 ((refunded_orders.map (·.total_amount)).sum)
      let expected_cash := round2 (row.opening_cash + cash_revenue)
      let actual_cash := round2 actual_cash_input
      let cash_difference := round2 (actual_cash - expected_cash)
      .ok { row with
        status := str "closed"
        expected_cash := expected_cash
        actual_cash := some actual_cash
        cash_difference := some cash_difference
        paid_order_count := paid_orders.length
        total_revenue := total_revenue
        cash_revenue := cash_revenue
        non_cash_revenue := non_cash_revenue
        refund_amount := refund_amount
        closed_at := some now
        notes :=
          match notes_input with
          | some n => if n ≠ [] then some (strip n) else row.notes
          | none => row.notes }

/-! ## Concrete instances used to settle the claims -/

/-- Catalog of three zero-priced components (representable at the storage
layer; the spec itself prices combo sides at catalog 0). -/
def zeroPriceDB : DB :=
  { menu := [⟨1, str "A", 0, true⟩, ⟨2, str "B", 0, true⟩, ⟨3, str "C", 0, true⟩]
    recipes := []
    ingredients := []
    movements := []
    combos := [⟨1, str "Z", 1, 0, 3, true, []⟩]
    orders := [] }

/-- A combo selection of the three zero-priced sides, quantity 1, against
the bundle of price 1.00. -/
def zeroPriceCombo : OrderComboCreate := ⟨1, 1, [], [1, 2, 3]⟩

/-- The combo rule of the spec's own scenario: bundle 60, one drink, one
side. -/
def bundle60Rule : ComboRule := ⟨7, str "SET60", 60, 1, 1, true, [1]⟩

/-- Catalog for the spec's own combo scenario: one 40-priced drink and one
zero-priced side bundled at 60. -/
def bundle60DB : DB :=
  { menu := [⟨1, str "Milk Tea", 40, true⟩, ⟨2, str "Toast", 0, true⟩]
    recipes := []
    ingredients := []
    movements := []
    combos := [bundle60Rule]
    orders := [] }

/-- The selection of that combo: drink 1, side 2, quantity 1. -/
def bundle60Input : OrderComboCreate := ⟨7, 1, [1], [2]⟩

/-- The lines the engine produces for that selection: the whole bundle on
the drink, zero on the side. -/
def bundle60Lines : List LineDict :=
  [ ⟨1, str "Milk Tea", 1, 60, 60, some (str "[COMBO:" ++ str "SET60" ++ str "]")⟩,
    ⟨2, str "Toast", 1, 0, 0, some (str "[COMBO:" ++ str "SET60" ++ str "]")⟩ ]

/-- An empty session state. -/
def emptyDB : DB := ⟨[], [], [], [], [], []⟩

/-- A paid order (inventory already consumed). -/
def paidOrder : Order :=
  ⟨str "N0", .pending, .paid, some (str "cash"), 65, true, true, false,
    [⟨1, str "Ham Egg Toast", 1, 65, 65, none⟩]⟩

/-- A completed order (terminal state). -/
def doneOrder : Order :=
  ⟨str "N9", .completed, .paid, some (str "cash"), 65, true, true, true, []⟩

/-- A small catalog with one menu item consuming 2 Egg per unit and a
5-Egg stock. -/
def invDB : DB :=
  { menu := [⟨1, str "Ham Egg Toast", 65, true⟩]
    recipes := [⟨1, 1, 2⟩]
    ingredients := [⟨1, str "Egg", str "pcs", 5, 0, 0⟩]
    movements := []
    combos := []
    orders := [] }

/-- An unpaid, not-yet-deducted order of one toast against `invDB`. -/
def toastOrder : Order :=
  ⟨str "N1", .pending, .unpaid, some (str "cash"), 65, false, false, false,
    [⟨1, str "Ham Egg Toast", 1, 65, 65, none⟩]⟩

/-- `invDB` after paying `toastOrder`: two eggs consumed. -/
def invDBAfter : DB :=
  { menu := [⟨1, str "Ham Egg Toast", 65, true⟩]
    recipes := [⟨1, 1, 2⟩]
    ingredients := [⟨1, str "Egg", str "pcs", 3, 0, 0⟩]
    movements := [⟨1, .usage, -2, none, some (str "ORDER:" ++ str "N1"), none⟩]
    combos := []
    orders := [] }

/-- `toastOrder` after inventory deduction. -/
def toastOrderDeducted : Order :=
  ⟨str "N1", .pending, .unpaid, some (str "cash"), 65, true, false, false,
    [⟨1, str "Ham Egg Toast", 1, 65, 65, none⟩]⟩

/-- `invDB` after amending the toast quantity from 1 up to 2. -/
def invDBAmendUp : DB :=
  { menu := [⟨1, str "Ham Egg Toast", 65, true⟩]
    recipes := [⟨1, 1, 2⟩]
    ingredients := [⟨1, str "Egg", str "pcs", 3, 0, 0⟩]
    movements := [⟨1, .usage, -2, none, some (str "AMEND:" ++ str "N1"),
      some (str "Auto-adjusted due to order amendment")⟩]
    combos := []
    orders := [] }

/-- `invDBAmendUp` after amending the quantity back down to 1. -/
def invDBAmendBack : DB :=
  { menu := [⟨1, str "Ham Egg Toast", 65, true⟩]
    recipes := [⟨1, 1, 2⟩]
    ingredients := [⟨1, str "Egg", str "pcs", 5, 0, 0⟩]
    movements := [⟨1, .usage, -2, none, some (str "AMEND:" ++ str "N1"),
      some (str "Auto-adjusted due to order amendment")⟩,
      ⟨1, .adjustment, 2, none, some (str "AMEND:" ++ str "N1"),
        some (str "Auto-restored due to order amendment")⟩]
    combos := []
    orders := [] }

/-- A catalog whose single ingredient is nearly exhausted: one egg in
stock against a recipe requiring two per toast. -/
def lowStockDB : DB :=
  { menu := [⟨1, str "Ham Egg Toast", 65, true⟩]
    recipes := [⟨1, 1, 2⟩]
    ingredients := [⟨1, str "Egg", str "pcs", 1, 0, 0⟩]
    movements := []
    combos := []
    orders := [] }

/-- An auto-pay order request for one toast. -/
def toastRequest : OrderCreate := ⟨true, str "cash", [⟨1, 1, none⟩], []⟩

/-- The direct lines priced for that request. -/
def toastDirectLines : List LineDict := [⟨1, str "Ham Egg Toast", 1, 65, 65, none⟩]

/-- A one-item catalog for the amendment no-op example. -/
def latteDB : DB :=
  { menu := [⟨1, str "Latte", 10, true⟩]
    recipes := []
    ingredients := []
    movements := []
    combos := []
    orders := [] }

/-- An order holding two lattes under the whitespace-padded note
`" hot "`. -/
def latteOrder : Order :=
  ⟨str "N2", .pending, .unpaid, some (str "cash"), 20, false, false, false,
    [⟨1, str "Latte", 2, 10, 20, some (str " hot ")⟩]⟩

/-- A cosmetic re-submission of the same lines: the same two lattes split
over two request rows whose notes differ only by whitespace. -/
def latteResubmit : List OrderItemCreate :=
  [⟨1, 1, some (str "hot")⟩, ⟨1, 1, some (str "hot  ")⟩]

/-- The aggregated line set of that re-submission. -/
def latteLines : List AmendLine := [⟨1, str "Latte", 2, 10, some (str "hot")⟩]

/-- Catalog behind the repricing example: item 1 at 10, item 2 at 40,
item 3 at 5. -/
def repriceDB : DB :=
  { menu := [⟨1, str "A", 10, true⟩, ⟨2, str "D", 40, true⟩, ⟨3, str "S", 5, true⟩]
    recipes := []
    ingredients := []
    movements := []
    combos := []
    orders := [] }

/-- An order whose first two lines carry combo-allocated prices (60 and 0
against catalog 40 and 5) plus one direct line; total 70. -/
def repriceOrder : Order :=
  ⟨str "N3", .pending, .unpaid, some (str "cash"), 70, false, false, false,
    [⟨2, str "D", 1, 60, 60, some (str "[COMBO:Z]")⟩,
     ⟨3, str "S", 1, 0, 0, some (str "[COMBO:Z]")⟩,
     ⟨1, str "A", 1, 10, 10, none⟩]⟩

/-- An amendment keeping both combo lines at quantity 1 and only raising
the direct line to quantity 2. -/
def repriceRequest : List OrderItemCreate :=
  [⟨2, 1, some (str "[COMBO:Z]")⟩, ⟨3, 1, some (str "[COMBO:Z]")⟩, ⟨1, 2, none⟩]

/-- The aggregated amended lines, repriced at catalog. -/
def repriceLines : List AmendLine :=
  [⟨1, str "A", 2, 10, none⟩, ⟨2, str "D", 1, 40, some (str "[COMBO:Z]")⟩,
   ⟨3, str "S", 1, 5, some (str "[COMBO:Z]")⟩]

/-- The diff of that amendment: only the direct line's quantity changed. -/
def repriceDiff : OrderDiffOut := ⟨[], [], [⟨str "A", 1, 2, none⟩]⟩

/-- The amended order: every line at catalog price, total 65. -/
def repriceOrderAmended : Order :=
  ⟨str "N3", .pending, .unpaid, some (str "cash"), 65, false, false, false,
    [⟨1, str "A", 2, 10, 20, none⟩,
     ⟨2, str "D", 1, 40, 40, some (str "[COMBO:Z]")⟩,
     ⟨3, str "S", 1, 5, 5, some (str "[COMBO:Z]")⟩]⟩

/-- The spec scenario's open shift: opening cash 100, opened at tick 0. -/
def morningShift : ShiftSession :=
  ⟨str "morning", str "open", 100, 100, none, none, 0, 0, 0, 0, 0, 0, none, none⟩

/-- One cash order of 65 and one non-cash order of 40, both paid at
tick 1. -/
def scenarioOrders : List OrdRow :=
  [⟨.paid, some (str "cash"), 65, some 1, 1⟩,
   ⟨.paid, some (str "line_pay"), 40, some 1, 1⟩]

/-- The closed shift row the scenario produces at tick 2 with actual cash
165. -/
def morningShiftClosed : ShiftSession :=
  ⟨str "morning", str "closed", 100, 165, some 165, some 0, 2, 105, 65, 40, 0, 0,
    some 2, none⟩

/-! ## Movement algebra -/

/-- Cumulative effect of a movement list on one ingredient row. -/
def applyMovsTo (ms : List StockMovement) (ing : Ingredient) : Ingredient :=
  ms.foldl (fun i m => applyMovTo m i) ing

/-- Net signed quantity a movement list applies to ingredient id `i`. -/
def movSum (ms : List StockMovement) (i : ℕ) : ℚ :=
  ((ms.filter (fun m => m.ingredient_id == i)).map (·.quantity)).sum

theorem applyMovTo_id (m : StockMovement) (ing : Ingredient) :
    (applyMovTo m ing).id = ing.id := by
  unfold applyMovTo; split <;> rfl

theorem applyMovTo_stock (m : StockMovement) (ing : Ingredient) :
    (applyMovTo m ing).current_stock =
      ing.current_stock + (if ing.id = m.ingredient_id then m.quantity else 0) := by
  unfold applyMovTo; split <;> simp

theorem applyMovsTo_nil (ing : Ingredient) : applyMovsTo [] ing = ing := rfl

theorem applyMovsTo_cons (m : StockMovement) (ms : List StockMovement) (ing : Ingredient) :
    applyMovsTo (m :: ms) ing = applyMovsTo ms (applyMovTo m ing) := rfl

theorem applyMovsTo_id (ms : List StockMovement) (ing : Ingredient) :
    (applyMovsTo ms ing).id = ing.id := by
  induction ms generalizing ing with
  | nil => rfl
  | cons m ms ih => rw [applyMovsTo_cons, ih, applyMovTo_id]

theorem movSum_nil (i : ℕ) : movSum [] i = 0 := rfl

theorem movSum_cons (m : StockMovement) (ms : List StockMovement) (i : ℕ) :
    movSum (m :: ms) i = (if m.ingredient_id = i then m.quantity else 0) + movSum ms i := by
  unfold movSum
  by_cases h : m.ingredient_id = i <;> simp [List.filter_cons, h]

theorem applyMovsTo_stock (ms : List StockMovement) (ing : Ingredient) :
    (applyMovsTo ms ing).current_stock = ing.current_stock + movSum ms ing.id := by
  induction ms generalizing ing with
  | nil => simp [applyMovsTo_nil, movSum_nil]
  | cons m ms ih =>
      rw [applyMovsTo_cons, ih, applyMovTo_id, applyMovTo_stock, movSum_cons]
      by_cases h : m.ingredient_id = ing.id
      · simp [h]; ring
      · rw [if_neg h, if_neg (fun hh => h hh.symm)]; ring

theorem applyMovs_nil (db : DB) : applyMovs db [] = db := rfl

theorem applyMovs_cons (db : DB) (m : StockMovement) (ms : List StockMovement) :
    applyMovs db (m :: ms) = applyMovs (create_movement db m) ms := rfl

theorem ingredients_applyMovs (db : DB) (ms : List StockMovement) :
    (applyMovs db ms).ingredients = db.ingredients.map (applyMovsTo ms) := by
  induction ms generalizing db with
  | nil =>
      rw [applyMovs_nil]
      have h : ∀ l : List Ingredient, l.map (applyMovsTo []) = l := by
        intro l
        induction l with
        | nil => rfl
        | cons a t iht => simp [applyMovsTo_nil, iht]
      exact (h db.ingredients).symm
  | cons m ms ih =>
      rw [applyMovs_cons, ih]
      show (db.ingredients.map (applyMovTo m)).map (applyMovsTo ms) = _
      rw [List.map_map]
      rfl

theorem movements_applyMovs (db : DB) (ms : List StockMovement) :
    (applyMovs db ms).movements = db.movements ++ ms := by
  induction ms generalizing db with
  | nil => simp [applyMovs_nil]
  | cons m ms ih =>
      rw [applyMovs_cons, ih]
      show (db.movements ++ [m]) ++ ms = _
      simp

theorem menu_applyMovs (db : DB) (ms : List StockMovement) :
    (applyMovs db ms).menu = db.menu := by
  induction ms generalizing db with
  | nil => rfl
  | cons m ms ih => rw [applyMovs_cons, ih]; rfl

theorem recipes_applyMovs (db : DB) (ms : List StockMovement) :
    (applyMovs db ms).recipes = db.recipes := by
  induction ms generalizing db with
  | nil => rfl
  | cons m ms ih => rw [applyMovs_cons, ih]; rfl

theorem getIngredient_applyMovs (db : DB) (ms : List StockMovement) (j : ℕ) :
    getIngredient (applyMovs db ms) j = (getIngredient db j).map (applyMovsTo ms) := by
  unfold getIngredient
  rw [ingredients_applyMovs, List.find?_map]
  have hp : ((fun ing : Ingredient => ing.id == j) ∘ applyMovsTo ms) =
      (fun ing : Ingredient => ing.id == j) := by
    funext ing
    simp [Function.comp, applyMovsTo_id]
  rw [hp]

theorem getIngredient_id {db : DB} {j : ℕ} {ing : Ingredient}
    (h : getIngredient db j = some ing) : ing.id = j := by
  have := List.find?_some h
  simpa using this

theorem stockOf_applyMovs (db : DB) (ms : List StockMovement) (j : ℕ) :
    stockOf (applyMovs db ms) j = (stockOf db j).map (· + movSum ms j) := by
  unfold stockOf
  rw [getIngredient_applyMovs]
  cases h : getIngredient db j with
  | none => simp
  | some ing =>
      have hid : ing.id = j := getIngredient_id h
      simp [applyMovsTo_stock, hid]

/-! ## Requirement-dict lemmas -/

theorem foldl_inv_mem {α β : Type _} (P : α → Prop) (f : α → β → α) :
    ∀ (l : List β), (∀ a b, b ∈ l → P a → P (f a b)) →
      ∀ a, P a → P (l.foldl f a) := by
  intro l
  induction l with
  | nil => intro _ a ha; exact ha
  | cons b t ih =>
      intro hf a ha
      exact ih (fun a' b' hb' => hf a' b' (List.mem_cons_of_mem _ hb')) (f a b)
        (hf a b (List.mem_cons_self _ _) ha)

theorem addReq_keys (l : List (ℕ × ℚ)) (k : ℕ) (q : ℚ) :
    (addReq l k q).map Prod.fst =
      if k ∈ l.map Prod.fst then l.map Prod.fst else l.map Prod.fst ++ [k] := by
  induction l with
  | nil => simp [addReq]
  | cons a t ih =>
      obtain ⟨k', q'⟩ := a
      by_cases h : k' = k
      · subst h
        simp [addReq]
      · simp only [addReq, if_neg h, List.map_cons, ih]
        by_cases hm : k ∈ t.map Prod.fst
        · simp [hm, Ne.symm h]
        · simp [hm, Ne.symm h]

theorem addReq_keys_nodup (l : List (ℕ × ℚ)) (k : ℕ) (q : ℚ)
    (h : (l.map Prod.fst).Nodup) : ((addReq l k q).map Prod.fst).Nodup := by
  rw [addReq_keys]
  by_cases hm : k ∈ l.map Prod.fst
  · simpa [hm] using h
  · simp only [if_neg hm]
    simp [List.nodup_append, h, hm]

theorem collect_keys_nodup (db : DB) (lines : List (ℕ × ℕ)) :
    ((collect_requirements_for_lines db lines).map Prod.fst).Nodup := by
  unfold collect_requirements_for_lines
  apply foldl_inv_mem (P := fun acc : List (ℕ × ℚ) => (acc.map Prod.fst).Nodup)
  · intro acc line _ hacc
    cases getMenuItem db line.1 with
    | none => exact hacc
    | some mi =>
        apply foldl_inv_mem (P := fun acc : List (ℕ × ℚ) => (acc.map Prod.fst).Nodup)
        · intro acc2 r _ hacc2
          cases getIngredient db r.ingredient_id with
          | none => exact hacc2
          | some ing => exact addReq_keys_nodup _ _ _ hacc2
        · exact hacc
  · simp

theorem addReq_nonneg (l : List (ℕ × ℚ)) (k : ℕ) (q : ℚ)
    (hl : ∀ p ∈ l, 0 ≤ p.2) (hq : 0 ≤ q) : ∀ p ∈ addReq l k q, 0 ≤ p.2 := by
  induction l with
  | nil =>
      intro p hp
      simp [addReq] at hp
      subst hp
      exact hq
  | cons a t ih =>
      obtain ⟨k', q'⟩ := a
      by_cases h : k' = k
      · subst h
        intro p hp
        simp only [addReq, if_pos rfl] at hp
        rcases List.mem_cons.mp hp with h1 | h2
        · subst h1
          exact add_nonneg (hl _ (List.mem_cons_self _ _)) hq
        · exact hl p (List.mem_cons_of_mem _ h2)
      · intro p hp
        simp only [addReq, if_neg h] at hp
        rcases List.mem_cons.mp hp with h1 | h2
        · subst h1
          exact hl _ (List.mem_cons_self _ _)
        · exact ih (fun p' hp' => hl p' (List.mem_cons_of_mem _ hp')) p h2

theorem collect_nonneg (db : DB) (lines : List (ℕ × ℕ))
    (hr : ∀ r ∈ db.recipes, 0 ≤ r.quantity) :
    ∀ p ∈ collect_requirements_for_lines db lines, 0 ≤ p.2 := by
  unfold collect_requirements_for_lines
  apply foldl_inv_mem (P := fun acc : List (ℕ × ℚ) => ∀ p ∈ acc, 0 ≤ p.2)
  · intro acc line _ hacc
    cases getMenuItem db line.1 with
    | none => exact hacc
    | some mi =>
        apply foldl_inv_mem (P := fun acc : List (ℕ × ℚ) => ∀ p ∈ acc, 0 ≤ p.2)
        · intro acc2 r hrmem hacc2
          cases getIngredient db r.ingredient_id with
          | none => exact hacc2
          | some ing =>
              apply addReq_nonneg _ _ _ hacc2
              exact mul_nonneg (hr r (List.mem_of_mem_filter hrmem)) (by positivity)
        · exact hacc
  · simp

theorem find?_mem_keys_nodup {α : Type _} (l : List (ℕ × α)) (p : ℕ × α)
    (h : (l.map Prod.fst).Nodup) (hp : p ∈ l) :
    l.find? (fun q => q.1 == p.1) = some p := by
  induction l with
  | nil => cases hp
  | cons a t ih =>
      rcases List.mem_cons.mp hp with h1 | h2
      · subst h1
        simp [List.find?_cons]
      · have ha : a.1 ≠ p.1 := by
          intro hk
          have : p.1 ∈ t.map Prod.fst := List.mem_map.mpr ⟨p, h2, rfl⟩
          rw [List.map_cons, List.nodup_cons] at h
          exact h.1 (hk ▸ this)
        rw [List.find?_cons_of_neg _ (by simpa using ha)]
        exact ih (by rw [List.map_cons, List.nodup_cons] at h; exact h.2) h2

theorem reqOf_of_mem {l : List (ℕ × ℚ)} {p : ℕ × ℚ}
    (h : (l.map Prod.fst).Nodup) (hp : p ∈ l) : reqOf l p.1 = p.2 := by
  unfold reqOf
  rw [find?_mem_keys_nodup l p h hp]

theorem reqOf_of_not_mem {l : List (ℕ × ℚ)} {j : ℕ}
    (h : j ∉ l.map Prod.fst) : reqOf l j = 0 := by
  unfold reqOf
  have : l.find? (fun p => p.1 == j) = none := by
    rw [List.find?_eq_none]
    intro p hp
    simp only [beq_iff_eq]
    intro hj
    exact h (List.mem_map.mpr ⟨p, hp, hj⟩)
  rw [this]

theorem reqOf_nonneg {l : List (ℕ × ℚ)} (hq : ∀ p ∈ l, 0 ≤ p.2) (j : ℕ) :
    0 ≤ reqOf l j := by
  unfold reqOf
  cases h : l.find? (fun p => p.1 == j) with
  | none => simp
  | some p => exact hq p (List.mem_of_find?_eq_some h)

theorem filter_key_of_nodup {α : Type _} (l : List (ℕ × α)) (j : ℕ)
    (h : (l.map Prod.fst).Nodup) :
    l.filter (fun p => p.1 == j) = (l.find? (fun p => p.1 == j)).toList := by
  induction l with
  | nil => rfl
  | cons a t ih =>
      rw [List.map_cons, List.nodup_cons] at h
      by_cases hj : a.1 = j
      · rw [List.filter_cons_of_pos (by simpa using hj),
          List.find?_cons_of_pos _ (by simpa using hj)]
        have ht : t.filter (fun p => p.1 == j) = [] := by
          rw [List.filter_eq_nil_iff]
          intro p hp
          simp only [beq_iff_eq]
          intro hpj
          exact h.1 (by rw [hj, ← hpj]; exact List.mem_map.mpr ⟨p, hp, rfl⟩)
        rw [ht]
        rfl
      · rw [List.filter_cons_of_neg (by simpa using hj),
          List.find?_cons_of_neg _ (by simpa using hj)]
        exact ih h.2

theorem reqOf_nil (j : ℕ) : reqOf [] j = 0 := rfl

theorem reqOf_cons (p : ℕ × ℚ) (t : List (ℕ × ℚ)) (j : ℕ) :
    reqOf (p :: t) j = if p.1 = j then p.2 else reqOf t j := by
  unfold reqOf
  by_cases h : p.1 = j
  · rw [List.find?_cons_of_pos _ (by simpa using h), if_pos h]
  · rw [List.find?_cons_of_neg _ (by simpa using h), if_neg h]

theorem movSum_usage (n : Str) (reqs : List (ℕ × ℚ)) (j : ℕ)
    (h : (reqs.map Prod.fst).Nodup) :
    movSum (usage_movements n reqs) j = -(reqOf reqs j) := by
  induction reqs with
  | nil => simp [usage_movements, movSum_nil, reqOf_nil]
  | cons p t ih =>
      rw [List.map_cons, List.nodup_cons] at h
      show movSum (_ :: usage_movements n t) j = _
      rw [movSum_cons, ih h.2, reqOf_cons]
      by_cases hj : p.1 = j
      · rw [if_pos hj, if_pos hj]
        have : reqOf t j = 0 := reqOf_of_not_mem (hj ▸ h.1)
        rw [ih h.2] at *
        simp [this]
      · rw [if_neg hj, if_neg hj]
        ring

theorem movSum_restore (n : Str) (reqs : List (ℕ × ℚ)) (j : ℕ)
    (h : (reqs.map Prod.fst).Nodup) :
    movSum (restore_movements n reqs) j = reqOf reqs j := by
  induction reqs with
  | nil => simp [restore_movements, movSum_nil, reqOf_nil]
  | cons p t ih =>
      rw [List.map_cons, List.nodup_cons] at h
      show movSum (_ :: restore_movements n t) j = _
      rw [movSum_cons, ih h.2, reqOf_cons]
      by_cases hj : p.1 = j
      · rw [if_pos hj, if_pos hj]
        have : reqOf t j = 0 := reqOf_of_not_mem (hj ▸ h.1)
        simp [this]
      · rw [if_neg hj, if_neg hj]
        ring

theorem filter_filterMap_keyed (f : ℕ → Option StockMovement)
    (hf : ∀ i m, f i = some m → m.ingredient_id = i) :
    ∀ (ids : List ℕ), ids.Nodup → ∀ j,
      (ids.filterMap f).filter (fun m => m.ingredient_id == j) =
        if j ∈ ids then (f j).toList else [] := by
  intro ids
  induction ids with
  | nil => intro _ j; simp
  | cons i t ih =>
      intro hnd j
      rw [List.nodup_cons] at hnd
      rw [List.filterMap_cons]
      cases hfi : f i with
      | none =>
          rw [ih hnd.2 j]
          by_cases hj : j = i
          · subst hj
            simp [List.mem_cons, hfi, fun hm => hnd.1 hm]
          · simp [List.mem_cons, hj]
      | some m =>
          have hm : m.ingredient_id = i := hf i m hfi
          by_cases hj : j = i
          · subst hj
            rw [List.filter_cons_of_pos (by simpa using hm)]
            rw [ih hnd.2 j, if_neg hnd.1, hfi]
            simp
          · rw [List.filter_cons_of_neg (by simpa [hm] using Ne.symm hj)]
            rw [ih hnd.2 j]
            simp [List.mem_cons, hj]

theorem movSum_filterMap (f : ℕ → Option StockMovement)
    (hf : ∀ i m, f i = some m → m.ingredient_id = i)
    (ids : List ℕ) (hnd : ids.Nodup) (j : ℕ) :
    movSum (ids.filterMap f) j =
      if j ∈ ids then (match f j with | some m => m.quantity | none => 0) else 0 := by
  unfold movSum
  rw [filter_filterMap_keyed f hf ids hnd j]
  by_cases hj : j ∈ ids
  · rw [if_pos hj, if_pos hj]
    cases f j with
    | none => simp
    | some m => simp
  · rw [if_neg hj, if_neg hj]
    simp

/-! ## Requirement collection is insensitive to stock movements -/

theorem collect_congr (db₁ db₂ : DB) (g : Ingredient → Ingredient)
    (hm : db₁.menu = db₂.menu) (hr : db₁.recipes = db₂.recipes)
    (hi : ∀ j, getIngredient db₁ j = (getIngredient db₂ j).map g)
    (hg : ∀ ing, (g ing).id = ing.id) (lines : List (ℕ × ℕ)) :
    collect_requirements_for_lines db₁ lines = collect_requirements_for_lines db₂ lines := by
  unfold collect_requirements_for_lines
  have hmenu : ∀ i, getMenuItem db₁ i = getMenuItem db₂ i := by
    intro i; unfold getMenuItem; rw [hm]
  have hstep :
      (fun (acc : List (ℕ × ℚ)) (line : ℕ × ℕ) =>
        match getMenuItem db₁ line.1 with
        | none => acc
        | some mi =>
            (db₁.recipes.filter (fun (r : RecipeLine) => r.menu_item_id == mi.id)).foldl
              (fun (acc2 : List (ℕ × ℚ)) (r : RecipeLine) =>
                match getIngredient db₁ r.ingredient_id with
                | none => acc2
                | some ing => addReq acc2 ing.id (r.quantity * (line.2 : ℚ)))
              acc) =
      (fun (acc : List (ℕ × ℚ)) (line : ℕ × ℕ) =>
        match getMenuItem db₂ line.1 with
        | none => acc
        | some mi =>
            (db₂.recipes.filter (fun (r : RecipeLine) => r.menu_item_id == mi.id)).foldl
              (fun (acc2 : List (ℕ × ℚ)) (r : RecipeLine) =>
                match getIngredient db₂ r.ingredient_id with
                | none => acc2
                | some ing => addReq acc2 ing.id (r.quantity * (line.2 : ℚ)))
              acc) := by
    funext acc line
    have hinner :
        (fun (acc2 : List (ℕ × ℚ)) (r : RecipeLine) =>
          match getIngredient db₁ r.ingredient_id with
          | none => acc2
          | some ing => addReq acc2 ing.id (r.quantity * (line.2 : ℚ))) =
        (fun (acc2 : List (ℕ × ℚ)) (r : RecipeLine) =>
          match getIngredient db₂ r.ingredient_id with
          | none => acc2
          | some ing => addReq acc2 ing.id (r.quantity * (line.2 : ℚ))) := by
      funext acc2 r
      rw [hi r.ingredient_id]
      cases getIngredient db₂ r.ingredient_id with
      | none => rfl
      | some ing => simp [hg ing]
    rw [hmenu line.1, hr, hinner]
  rw [hstep]

theorem collect_applyMovs (db : DB) (ms : List StockMovement) (lines : List (ℕ × ℕ)) :
    collect_requirements_for_lines (applyMovs db ms) lines =
      collect_requirements_for_lines db lines :=
  collect_congr _ _ (applyMovsTo ms) (menu_applyMovs db ms) (recipes_applyMovs db ms)
    (getIngredient_applyMovs db ms) (applyMovsTo_id ms) lines

/-! ## Primary-key uniqueness -/

/-- Ingredient primary keys are distinct (database primary-key constraint). -/
def IdsNodup (db : DB) : Prop := (db.ingredients.map (·.id)).Nodup

/-- Every ingredient row is non-negative within the floating tolerance. -/
def StockInv (db : DB) : Prop :=
  ∀ ing ∈ db.ingredients, -EPSILON ≤ ing.current_stock

/-- Recipe quantities are nonnegative (the API schema enforces
`quantity > 0` on every recipe line). -/
def RecipesNonneg (db : DB) : Prop := ∀ r ∈ db.recipes, 0 ≤ r.quantity

theorem find?_id_of_mem_nodup (l : List Ingredient)
    (hnd : (l.map (·.id)).Nodup) (ing : Ingredient) (hmem : ing ∈ l) :
    l.find? (fun i => i.id == ing.id) = some ing := by
  induction l with
  | nil => cases hmem
  | cons a t ih =>
      rw [List.map_cons, List.nodup_cons] at hnd
      rcases List.mem_cons.mp hmem with h1 | h2
      · subst h1
        simp [List.find?_cons]
      · have ha : a.id ≠ ing.id := by
          intro hk
          have : ing.id ∈ t.map (·.id) := List.mem_map.mpr ⟨ing, h2, rfl⟩
          exact hnd.1 (hk ▸ this)
        rw [List.find?_cons_of_neg _ (by simpa using ha)]
        exact ih hnd.2 h2

theorem getIngredient_of_mem_nodup {db : DB} (hnd : IdsNodup db)
    {ing : Ingredient} (hmem : ing ∈ db.ingredients) :
    getIngredient db ing.id = some ing :=
  find?_id_of_mem_nodup db.ingredients hnd ing hmem

/-! ## Validation extraction -/

theorem shortage_rows_eq_nil {db : DB} {reqs : List (ℕ × ℚ)}
    (h : shortage_rows db reqs = []) :
    ∀ p ∈ reqs, ∀ ing, getIngredient db p.1 = some ing →
      ¬(ing.current_stock + EPSILON < p.2) := by
  intro p hp ing hI hlt
  unfold shortage_rows at h
  rw [List.filterMap_eq_nil_iff] at h
  have := h p hp
  rw [hI] at this
  simp only [hlt, if_true] at this
  cases this

theorem amend_shortages_eq_nil {db : DB} {ids : List ℕ} {prevR nextR : List (ℕ × ℚ)}
    (h : amend_shortages db ids prevR nextR = []) :
    ∀ i ∈ ids, ∀ ing, getIngredient db i = some ing →
      ¬(EPSILON < reqOf nextR i - reqOf prevR i ∧
        ing.current_stock + EPSILON < reqOf nextR i - reqOf prevR i) := by
  intro i hi ing hI hcond
  unfold amend_shortages at h
  rw [List.filterMap_eq_nil_iff] at h
  have := h i hi
  rw [hI] at this
  simp only [hcond, if_true] at this
  cases this

/-! ## Stock-invariant preservation -/

theorem stockInv_applyMovs {db : DB} {ms : List StockMovement}
    (h : ∀ ing ∈ db.ingredients, -EPSILON ≤ ing.current_stock + movSum ms ing.id) :
    StockInv (applyMovs db ms) := by
  intro ing' hmem'
  rw [ingredients_applyMovs] at hmem'
  obtain ⟨ing, hmem, rfl⟩ := List.mem_map.mp hmem'
  rw [applyMovsTo_stock]
  exact h ing hmem

theorem epsilon_pos : (0 : ℚ) < EPSILON := by norm_num [EPSILON]

theorem movSum_singleton (m : StockMovement) (j : ℕ) :
    movSum [m] j = if m.ingredient_id = j then m.quantity else 0 := by
  rw [movSum_cons, movSum_nil, add_zero]

theorem stockInv_create_movement {db : DB} {m : StockMovement}
    (hInv : StockInv db) (hnd : IdsNodup db)
    (hguard : ∀ ing, getIngredient db m.ingredient_id = some ing →
      -EPSILON ≤ ing.current_stock + m.quantity) :
    StockInv (create_movement db m) := by
  have : create_movement db m = applyMovs db [m] := rfl
  rw [this]
  apply stockInv_applyMovs
  intro ing hmem
  rw [movSum_singleton]
  by_cases hj : m.ingredient_id = ing.id
  · rw [if_pos hj]
    exact hguard ing (hj ▸ getIngredient_of_mem_nodup hnd hmem)
  · rw [if_neg hj, add_zero]
    exact hInv ing hmem

theorem stockInv_manual {db : DB} {i : ℕ} {mt : MovementType} {q : ℚ}
    {uc : Option ℚ} {ref nt : Option Str} {db' : DB}
    (hInv : StockInv db) (hnd : IdsNodup db)
    (hok : apply_manual_movement db i mt q uc ref nt = .ok db') : StockInv db' := by
  unfold apply_manual_movement at hok
  cases hI : getIngredient db i with
  | none => rw [hI] at hok; cases hok
  | some ing =>
      rw [hI] at hok
      cases mt <;> simp only [] at hok
      case usage => cases hok
      all_goals {
        split at hok
        · cases hok
        · rename_i hguard0
          injection hok with hok'
          subst hok'
          apply stockInv_create_movement hInv hnd
          intro ing' h'
          have hing : getIngredient db ing.id = some ing := by
            rw [getIngredient_id hI]; exact hI
          rw [hing] at h'
          injection h' with h''
          subst h''
          exact le_of_not_lt hguard0
      }

theorem collect_order_keys_nodup (db : DB) (o : Order) :
    ((collect_order_requirements db o).map Prod.fst).Nodup :=
  collect_keys_nodup db _

theorem stockInv_deduct {db : DB} {o : Order} {db' : DB} {o' : Order}
    {ls : List LowStockRow}
    (hInv : StockInv db) (hnd : IdsNodup db)
    (hok : deduct_inventory_for_order db o = .ok (db', o', ls)) : StockInv db' := by
  by_cases hd : o.inventory_deducted
  · simp only [deduct_inventory_for_order, if_pos hd] at hok
    obtain ⟨h1, _, _⟩ := by simpa using hok
    rw [← h1]
    exact hInv
  · simp only [deduct_inventory_for_order, if_neg hd] at hok
    by_cases hs : shortage_rows db (collect_order_requirements db o) = []
    · simp only [hs, ne_eq, not_true_eq_false, if_false] at hok
      obtain ⟨h1, _, _⟩ := by simpa using hok
      rw [← h1]
      apply stockInv_applyMovs
      intro ing hmem
      rw [movSum_usage _ _ _ (collect_order_keys_nodup db o)]
      by_cases hin : ing.id ∈ (collect_order_requirements db o).map Prod.fst
      · obtain ⟨p, hp, hpid⟩ := List.mem_map.mp hin
        have hro : reqOf (collect_order_requirements db o) ing.id = p.2 := by
          rw [← hpid]; exact reqOf_of_mem (collect_order_keys_nodup db o) hp
        have hval := shortage_rows_eq_nil hs p hp ing
          (by rw [hpid]; exact getIngredient_of_mem_nodup hnd hmem)
        rw [hro]
        rw [not_lt] at hval
        linarith
      · rw [reqOf_of_not_mem hin]
        have := hInv ing hmem
        linarith
    · simp only [ne_eq, hs, not_false_eq_true, if_true] at hok
      cases hok

theorem stockInv_restore {db : DB} {o : Order}
    (hInv : StockInv db) (hrec : RecipesNonneg db) :
    StockInv (restore_inventory_for_cancelled_order db o).1 := by
  by_cases hd : ¬ o.inventory_deducted
  · simp only [restore_inventory_for_cancelled_order, if_pos hd]
    exact hInv
  · simp only [restore_inventory_for_cancelled_order, if_neg hd]
    split
    · exact hInv
    · apply stockInv_applyMovs
      intro ing hmem
      rw [movSum_restore _ _ _ (collect_order_keys_nodup db o)]
      have h0 : 0 ≤ reqOf (collect_order_requirements db o) ing.id :=
        reqOf_nonneg (collect_nonneg db _ hrec) _
      have := hInv ing hmem
      linarith

theorem amend_movements_keyed (n : Str) (prevR nextR : List (ℕ × ℚ)) :
    ∀ i m,
      (fun i => (if EPSILON < reqOf nextR i - reqOf prevR i then
        some
          { ingredient_id := i
            movement_type := MovementType.usage
            quantity := -(reqOf nextR i - reqOf prevR i)
            unit_cost := none
            reference := some (str "AMEND:" ++ n)
            notes := some (str "Auto-adjusted due to order amendment") }
      else if reqOf nextR i - reqOf prevR i < -EPSILON then
        some
          { ingredient_id := i
            movement_type := MovementType.adjustment
            quantity := -(reqOf nextR i - reqOf prevR i)
            unit_cost := none
            reference := some (str "AMEND:" ++ n)
            notes := some (str "Auto-restored due to order amendment") }
      else none : Option StockMovement)) i = some m → m.ingredient_id = i := by
  intro i m h
  simp only [] at h
  split at h
  · cases h; rfl
  · split at h
    · cases h; rfl
    · cases h

theorem sortedUnionKeys_nodup (a b : List ℕ) : (sortedUnionKeys a b).Nodup := by
  unfold sortedUnionKeys
  exact (List.perm_insertionSort _ _).symm.nodup (List.nodup_dedup _)

theorem stockInv_adjust {db : DB} {o : Order} {prev next : List (ℕ × ℕ)}
    {db' : DB} {ls : List LowStockRow}
    (hInv : StockInv db) (hnd : IdsNodup db)
    (hok : adjust_inventory_for_amended_order db o prev next = .ok (db', ls)) :
    StockInv db' := by
  by_cases hd : ¬ o.inventory_deducted
  · simp only [adjust_inventory_for_amended_order, if_pos hd] at hok
    obtain ⟨h1, _⟩ := by simpa using hok
    rw [← h1]
    exact hInv
  · simp only [adjust_inventory_for_amended_order, if_neg hd] at hok
    set prevR := collect_requirements_for_lines db prev with hprevR
    set nextR := collect_requirements_for_lines db next with hnextR
    set ids := sortedUnionKeys (prevR.map Prod.fst) (nextR.map Prod.fst) with hids
    by_cases hs : amend_shortages db ids prevR nextR = []
    · simp only [hs, ne_eq, not_true_eq_false, if_false] at hok
      obtain ⟨h1, _⟩ := by simpa using hok
      rw [← h1]
      apply stockInv_applyMovs
      intro ing hmem
      unfold amend_movements
      rw [movSum_filterMap _ (amend_movements_keyed o.order_number prevR nextR) ids
        (sortedUnionKeys_nodup _ _) ing.id]
      by_cases hin : ing.id ∈ ids
      · rw [if_pos hin]
        have hval := amend_shortages_eq_nil hs ing.id hin ing
          (getIngredient_of_mem_nodup hnd hmem)
        have hstock := hInv ing hmem
        generalize hδ : reqOf nextR ing.id - reqOf prevR ing.id = δ at hval ⊢
        by_cases h1 : EPSILON < δ
        · have h2 : ¬ (ing.current_stock + EPSILON < δ) := fun hh => hval ⟨h1, hh⟩
          rw [not_lt] at h2
          simp only [if_pos h1]
          show -EPSILON ≤ ing.current_stock + -δ
          linarith
        · simp only [if_neg h1]
          by_cases h2 : δ < -EPSILON
          · simp only [if_pos h2]
            show -EPSILON ≤ ing.current_stock + -δ
            linarith [epsilon_pos]
          · simp only [if_neg h2]
            show -EPSILON ≤ ing.current_stock + 0
            linarith
      · rw [if_neg hin]
        have := hInv ing hmem
        linarith
    · simp only [ne_eq, hs, not_false_eq_true, if_true] at hok
      cases hok

/-! ## Allocation lemmas (Combo Pricing Engine) -/

theorem allocLoop_sum (total base : ℚ) :
    ∀ (l : List (ℕ × ℚ)) (remaining : ℚ), l ≠ [] → IsCents remaining →
      ((allocLoop total base remaining l).map Prod.snd).sum = remaining := by
  intro l
  induction l with
  | nil => intro r h _; cases h rfl
  | cons kw rest ih =>
      intro r _ hc
      cases rest with
      | nil => simp [allocLoop]
      | cons kw2 rest2 =>
          show ((allocLoop total base r (kw :: kw2 :: rest2)).map Prod.snd).sum = r
          rw [allocLoop]
          simp only [List.map_cons, List.sum_cons]
          rw [ih (round2 (r - round2 (total * (kw.2 / base))))
            (List.cons_ne_nil _ _) (isCents_round2 _)]
          rw [round2_of_isCents (isCents_sub hc (isCents_round2 _))]
          ring

theorem allocLoop_keys (total base : ℚ) :
    ∀ (l : List (ℕ × ℚ)) (remaining : ℚ),
      (allocLoop total base remaining l).map Prod.fst = l.map Prod.fst := by
  intro l
  induction l with
  | nil => intro r; rfl
  | cons kw rest ih =>
      intro r
      cases rest with
      | nil => simp [allocLoop]
      | cons kw2 rest2 =>
          rw [allocLoop]
          simp only [List.map_cons]
          rw [ih]
          simp

theorem allocLoop_snd_cents (total base : ℚ) :
    ∀ (l : List (ℕ × ℚ)) (remaining : ℚ), IsCents remaining →
      ∀ p ∈ allocLoop total base remaining l, IsCents p.2 := by
  intro l
  induction l with
  | nil => intro r _ p hp; cases hp
  | cons kw rest ih =>
      intro r hc p hp
      cases rest with
      | nil =>
          simp only [allocLoop, List.mem_singleton] at hp
          subst hp
          exact hc
      | cons kw2 rest2 =>
          rw [allocLoop] at hp
          rcases List.mem_cons.mp hp with h1 | h2
          · subst h1
            exact isCents_round2 _
          · exact ih (round2 (r - round2 (total * (kw.2 / base)))) (isCents_round2 _) p h2

theorem allocate_keys (t : ℚ) (wk : List (ℕ × ℚ)) :
    (allocate_weighted_line_totals t wk).map Prod.fst = wk.map Prod.fst := by
  unfold allocate_weighted_line_totals
  by_cases hne : wk = []
  · simp [hne]
  · rw [if_neg hne]
    by_cases hb : (wk.map Prod.snd).sum ≤ 0
    · rw [if_pos hb]
      simp [List.map_map, Function.comp]
    · rw [if_neg hb]
      exact allocLoop_keys _ _ _ _

theorem allocate_snd_cents (t : ℚ) (wk : List (ℕ × ℚ)) :
    ∀ p ∈ allocate_weighted_line_totals t wk, IsCents p.2 := by
  unfold allocate_weighted_line_totals
  by_cases hne : wk = []
  · simp [hne]
  · rw [if_neg hne]
    by_cases hb : (wk.map Prod.snd).sum ≤ 0
    · rw [if_pos hb]
      intro p hp
      obtain ⟨q, _, rfl⟩ := List.mem_map.mp hp
      exact isCents_round2 _
    · rw [if_neg hb]
      exact allocLoop_snd_cents _ _ _ _ (isCents_round2 _)

theorem allocate_sum_of_pos (t : ℚ) (wk : List (ℕ × ℚ)) (hne : wk ≠ [])
    (hpos : 0 < (wk.map Prod.snd).sum) :
    ((allocate_weighted_line_totals t wk).map Prod.snd).sum = round2 t := by
  unfold allocate_weighted_line_totals
  rw [if_neg hne, if_neg (not_le.mpr hpos)]
  exact allocLoop_sum t _ wk (round2 t) hne (isCents_round2 t)

theorem map_reqOf_aligned {α : Type _} :
    ∀ (counts : List (ℕ × α)) (alloc : List (ℕ × ℚ)),
      alloc.map Prod.fst = counts.map Prod.fst →
      (counts.map Prod.fst).Nodup →
      counts.map (fun p => reqOf alloc p.1) = alloc.map Prod.snd := by
  intro counts
  induction counts with
  | nil =>
      intro alloc hk _
      have halloc : alloc = [] := by
        have hk' : alloc.map Prod.fst = [] := by simpa using hk
        exact List.map_eq_nil_iff.mp hk'
      subst halloc
      rfl
  | cons c t ih =>
      intro alloc hk hnd
      cases alloc with
      | nil => cases hk
      | cons a alloc' =>
          simp only [List.map_cons, List.cons.injEq] at hk
          rw [List.map_cons, List.nodup_cons] at hnd
          simp only [List.map_cons]
          rw [reqOf_cons, if_pos hk.1]
          congr 1
          have hcongr : ∀ p ∈ t, reqOf (a :: alloc') p.1 = reqOf alloc' p.1 := by
            intro p hp
            rw [reqOf_cons, if_neg]
            intro hcontra
            exact hnd.1 (hk.1 ▸ hcontra ▸ List.mem_map.mpr ⟨p, hp, rfl⟩)
          rw [List.map_congr_left hcongr]
          exact ih alloc' hk.2 hnd.2

theorem addCount_keys (l : List (ℕ × ℕ)) (x : ℕ) :
    (addCount l x).map Prod.fst =
      if x ∈ l.map Prod.fst then l.map Prod.fst else l.map Prod.fst ++ [x] := by
  induction l with
  | nil => simp [addCount]
  | cons a t ih =>
      obtain ⟨k, c⟩ := a
      by_cases h : k = x
      · subst h
        simp [addCount]
      · simp only [addCount, if_neg h, List.map_cons, ih]
        by_cases hm : x ∈ t.map Prod.fst
        · simp [hm, Ne.symm h]
        · simp [hm, Ne.symm h]

theorem addCount_keys_nodup (l : List (ℕ × ℕ)) (x : ℕ)
    (h : (l.map Prod.fst).Nodup) : ((addCount l x).map Prod.fst).Nodup := by
  rw [addCount_keys]
  by_cases hm : x ∈ l.map Prod.fst
  · simpa [hm] using h
  · simp only [if_neg hm]
    simp [List.nodup_append, h, hm]

theorem counterOf_keys_nodup (l : List ℕ) : ((counterOf l).map Prod.fst).Nodup := by
  unfold counterOf
  apply foldl_inv_mem (P := fun acc : List (ℕ × ℕ) => (acc.map Prod.fst).Nodup)
  · intro acc x _ hacc
    exact addCount_keys_nodup acc x hacc
  · simp

theorem addCount_ne_nil (l : List (ℕ × ℕ)) (x : ℕ) : addCount l x ≠ [] := by
  cases l with
  | nil => simp [addCount]
  | cons a t =>
      obtain ⟨k, c⟩ := a
      by_cases h : k = x <;> simp [addCount, h]

theorem counterOf_ne_nil {l : List ℕ} (h : l ≠ []) : counterOf l ≠ [] := by
  cases l with
  | nil => cases h rfl
  | cons x t =>
      show (t.foldl addCount (addCount [] x)) ≠ []
      apply foldl_inv_mem (P := fun acc : List (ℕ × ℕ) => acc ≠ [])
      · intro acc y _ _
        exact addCount_ne_nil acc y
      · exact addCount_ne_nil [] x

theorem isCents_zero : IsCents 0 := ⟨0, by norm_num⟩

theorem reqOf_cents {l : List (ℕ × ℚ)} (h : ∀ p ∈ l, IsCents p.2) (j : ℕ) :
    IsCents (reqOf l j) := by
  unfold reqOf
  cases hf : l.find? (fun p => p.1 == j) with
  | none => exact isCents_zero
  | some p => exact h p (List.mem_of_find?_eq_some hf)

theorem combo_line_counts_fst (inp : OrderComboCreate) :
    (combo_line_counts inp).map Prod.fst =
      (counterOf (inp.drink_item_ids ++ inp.side_item_ids)).map Prod.fst := by
  unfold combo_line_counts
  rw [List.map_map]
  rfl

theorem combo_weighted_keys_fst (db : DB) (inp : OrderComboCreate) :
    (combo_weighted_keys db inp).map Prod.fst = (combo_line_counts inp).map Prod.fst := by
  unfold combo_weighted_keys
  rw [List.map_map]
  rfl

theorem combo_line_counts_keys_nodup (inp : OrderComboCreate) :
    ((combo_line_counts inp).map Prod.fst).Nodup := by
  rw [combo_line_counts_fst]
  exact counterOf_keys_nodup _

/-- C1 (amended, positive-weight case): whenever some component carries
positive weight, the generated line totals sum exactly to the rounded
bundle total. -/
theorem combo_sum_eq_bundle_of_pos_weight {db : DB} {inp : OrderComboCreate}
    {combo : ComboRule} {lines : List LineDict}
    (hc : getCombo db inp.combo_id = some combo)
    (hok : build_combo_order_lines db inp = .ok lines)
    (hpos : 0 < ((combo_weighted_keys db inp).map Prod.snd).sum) :
    (lines.map (·.line_total)).sum = round2 (combo.bundle_price * (inp.quantity : ℚ)) := by
  simp only [build_combo_order_lines, hc] at hok
  split at hok; · cases hok
  split at hok; · cases hok
  split at hok; · cases hok
  split at hok; · cases hok
  split at hok
  · cases hok
  rename_i hne0
  split at hok; · cases hok
  split at hok; · cases hok
  injection hok with hok'
  subst hok'
  rw [List.map_map]
  show ((combo_line_counts inp).map (fun p =>
    round2 (reqOf (allocate_weighted_line_totals
      (round2 (combo.bundle_price * (inp.quantity : ℚ)))
      (combo_weighted_keys db inp)) p.1))).sum = _
  have hcents : ∀ p ∈ combo_line_counts inp,
      round2 (reqOf (allocate_weighted_line_totals
        (round2 (combo.bundle_price * (inp.quantity : ℚ)))
        (combo_weighted_keys db inp)) p.1) =
      reqOf (allocate_weighted_line_totals
        (round2 (combo.bundle_price * (inp.quantity : ℚ)))
        (combo_weighted_keys db inp)) p.1 := by
    intro p _
    exact round2_of_isCents (reqOf_cents (allocate_snd_cents _ _) p.1)
  rw [List.map_congr_left hcents]
  rw [map_reqOf_aligned (combo_line_counts inp) _
    (by rw [allocate_keys, combo_weighted_keys_fst])
    (combo_line_counts_keys_nodup inp)]
  have hne : combo_weighted_keys db inp ≠ [] := by
    intro hwk
    have hlc : combo_line_counts inp = [] := by
      unfold combo_weighted_keys at hwk
      exact List.map_eq_nil_iff.mp hwk
    exact counterOf_ne_nil hne0 (by
      unfold combo_line_counts at hlc
      exact List.map_eq_nil_iff.mp hlc)
  rw [allocate_sum_of_pos _ _ hne hpos]
  exact round2_of_isCents (isCents_round2 _)

/-- C1 (counterexample): with all component catalog prices zero, the
even-split fallback yields lines summing to 0.99 for a bundle total of
1.00 — the claimed exact equality fails. -/
theorem combo_sum_even_split_counterexample :
    (build_combo_order_lines zeroPriceDB zeroPriceCombo).map
        (fun ls => (ls.map (·.line_total)).sum) = .ok (99/100 : ℚ) ∧
      round2 ((1 : ℚ) * (1 : ℚ)) = 1 ∧ (99/100 : ℚ) ≠ 1 := by
  refine ⟨?_, ?_, by norm_num⟩
  · simp [build_combo_order_lines, zeroPriceDB, zeroPriceCombo, getCombo, getMenuItem,
      counterOf, addCount, priceOf, nameOf, allocate_weighted_line_totals, allocLoop,
      reqOf, combo_line_counts, combo_weighted_keys, str, List.find?, Except.map]
    norm_num [round2, pyRound, round_eq]
  · norm_num [round2, pyRound, round_eq]

theorem bundle60Lines_ok :
    build_combo_order_lines bundle60DB bundle60Input = .ok bundle60Lines := by
  simp [build_combo_order_lines, bundle60DB, bundle60Input, bundle60Lines, bundle60Rule,
    getCombo, getMenuItem, counterOf, addCount, priceOf, nameOf,
    allocate_weighted_line_totals, allocLoop, reqOf, combo_line_counts,
    combo_weighted_keys, str, List.find?]
  norm_num [round2, pyRound, round_eq]

/-- C1 (witness): the spec's own scenario — 40-priced drink plus
zero-priced side bundled at 60 — has positive weight sum, an accepted
selection, and line totals summing to `round2 60 = 60`. -/
theorem combo_sum_eq_bundle_witness :
    getCombo bundle60DB bundle60Input.combo_id = some bundle60Rule ∧
      0 < ((combo_weighted_keys bundle60DB bundle60Input).map Prod.snd).sum ∧
      ((bundle60Lines.map (·.line_total)).sum =
        round2 (bundle60Rule.bundle_price * (bundle60Input.quantity : ℚ))) := by
  have hc : getCombo bundle60DB bundle60Input.combo_id = some bundle60Rule := by
    simp [getCombo, bundle60DB, bundle60Input, bundle60Rule, List.find?]
  have hpos : 0 < ((combo_weighted_keys bundle60DB bundle60Input).map Prod.snd).sum := by
    simp [combo_weighted_keys, combo_line_counts, bundle60DB, bundle60Input, counterOf,
      addCount, priceOf, getMenuItem, List.find?]
  exact ⟨hc, hpos, combo_sum_eq_bundle_of_pos_weight hc bundle60Lines_ok hpos⟩

/-- C3: a second `pay_order` call on an already-paid order returns an
empty low-stock list and leaves the entire state (session and order)
untouched. -/
theorem pay_order_already_paid_noop (db : DB) (o : Order) (pm : Option Str)
    (h : o.payment_status = .paid) :
    pay_order db o pm = .ok (db, o, []) := by
  unfold pay_order
  rw [if_pos h]

theorem pay_order_already_paid_noop_witness :
    paidOrder.payment_status = .paid ∧
      pay_order emptyDB paidOrder (some (str "cash")) = .ok (emptyDB, paidOrder, []) :=
  ⟨rfl, pay_order_already_paid_noop emptyDB paidOrder (some (str "cash")) rfl⟩

theorem mem_valid_transitions_iff (s next : OrderStatus) :
    next ∈ valid_transitions s ↔
      ((s = .pending ∧ next = .preparing) ∨ (s = .pending ∧ next = .cancelled) ∨
        (s = .preparing ∧ next = .ready) ∨ (s = .preparing ∧ next = .cancelled) ∨
        (s = .ready ∧ next = .completed)) := by
  cases s <;> cases next <;> simp [valid_transitions]

/-- C7: `update_order_status` raises `InvalidTransition` exactly when the
requested transition is outside the five-edge table and the target differs
from the current status; `completed`/`cancelled` reject amendment with
`OrderLocked`; a same-status call never raises and returns a result. -/
theorem status_transition_spec (db : DB) (o : Order) (next : OrderStatus)
    (payload : List OrderItemCreate) :
    (update_order_status db o next = .error .invalidTransition ↔
      (¬ ((o.status = .pending ∧ next = .preparing) ∨ (o.status = .pending ∧ next = .cancelled) ∨
          (o.status = .preparing ∧ next = .ready) ∨ (o.status = .preparing ∧ next = .cancelled) ∨
          (o.status = .ready ∧ next = .completed)) ∧ next ≠ o.status)) ∧
    ((o.status = .completed ∨ o.status = .cancelled) →
      amend_order db o payload = .error .orderLocked) ∧
    (next = o.status → ∃ r, update_order_status db o next = .ok r) := by
  refine ⟨?_, ?_, ?_⟩
  · constructor
    · intro h
      unfold update_order_status at h
      split at h
      · rename_i hcond
        rw [mem_valid_transitions_iff] at hcond
        exact hcond
      · split at h <;> split at h <;> cases h
    · intro hcond
      unfold update_order_status
      rw [if_pos (by rw [mem_valid_transitions_iff]; exact hcond)]
  · intro hterm
    unfold amend_order
    rw [if_pos hterm]
  · intro hsame
    unfold update_order_status
    rw [if_neg (by
      intro hcond
      exact hcond.2 hsame)]
    split <;> split <;> exact ⟨_, rfl⟩

theorem status_transition_spec_witness :
    (update_order_status emptyDB doneOrder .pending = .error .invalidTransition) ∧
      (amend_order emptyDB doneOrder [] = .error .orderLocked) ∧
      (∃ r, update_order_status emptyDB doneOrder .completed = .ok r) := by
  refine ⟨?_, ?_, ?_⟩
  · exact (status_transition_spec emptyDB doneOrder .pending []).1.mpr
      (by simp [doneOrder])
  · exact (status_transition_spec emptyDB doneOrder .pending []).2.1 (Or.inl rfl)
  · exact (status_transition_spec emptyDB doneOrder .completed []).2.2 rfl

/-- C2: under distinct ingredient primary keys and nonnegative recipe
quantities (both schema-enforced), every public inventory-mutating
operation that completes without error preserves
`current_stock ≥ -1e-9` on every ingredient. -/
theorem stock_invariant_preserved (db : DB)
    (hInv : StockInv db) (hnd : IdsNodup db) (hrec : RecipesNonneg db) :
    (∀ i mt q uc r nt db',
      apply_manual_movement db i mt q uc r nt = .ok db' → StockInv db') ∧
    (∀ o db' o' ls,
      deduct_inventory_for_order db o = .ok (db', o', ls) → StockInv db') ∧
    (∀ o, StockInv (restore_inventory_for_cancelled_order db o).1) ∧
    (∀ o prev next db' ls,
      adjust_inventory_for_amended_order db o prev next = .ok (db', ls) → StockInv db') :=
  ⟨fun _ _ _ _ _ _ _ h => stockInv_manual hInv hnd h,
   fun _ _ _ _ h => stockInv_deduct hInv hnd h,
   fun _ => stockInv_restore hInv hrec,
   fun _ _ _ _ _ h => stockInv_adjust hInv hnd h⟩

theorem stock_invariant_preserved_witness :
    StockInv invDB ∧ IdsNodup invDB ∧ RecipesNonneg invDB ∧
      (∀ o db' o' ls,
        deduct_inventory_for_order invDB o = .ok (db', o', ls) → StockInv db') := by
  have h1 : StockInv invDB := by
    intro ing hmem
    simp [invDB] at hmem
    subst hmem
    norm_num [EPSILON]
  have h2 : IdsNodup invDB := by simp [IdsNodup, invDB]
  have h3 : RecipesNonneg invDB := by
    intro r hr
    simp [invDB] at hr
    subst hr
    norm_num
  exact ⟨h1, h2, h3, (stock_invariant_preserved invDB h1 h2 h3).2.1⟩

theorem deduct_shortage_error {db : DB} (o : Order)
    (hfo : o.inventory_deducted = false)
    (hshort : shortage_rows db (collect_order_requirements db o) ≠ []) :
    deduct_inventory_for_order db o =
      .error (.insufficientInventory (shortage_rows db (collect_order_requirements db o))) := by
  simp only [deduct_inventory_for_order, hfo, Bool.false_eq_true, if_false]
  rw [if_pos hshort]

/-- C8: an auto-pay order creation whose requirements exceed stock fails
with `InsufficientInventory` carrying every shortage row, and the
transaction leaves the committed state untouched: no movement, no stock
change, no order row. -/
theorem create_order_shortage_atomic (db : DB) (payload : OrderCreate) (n : Str)
    (direct comboLines : List LineDict)
    (hauto : payload.auto_pay = true)
    (hd : build_direct_lines db payload.items = .ok direct)
    (hcb : build_all_combo_lines db payload.combos = .ok comboLines)
    (hne : direct ++ comboLines ≠ [])
    (hshort : shortage_rows db (collect_requirements_for_lines db
      ((direct ++ comboLines).map (fun l => (l.menu_item_id, l.quantity)))) ≠ []) :
    create_order_txn db payload n =
      (db, .error (.insufficientInventory (shortage_rows db
        (collect_requirements_for_lines db
          ((direct ++ comboLines).map (fun l => (l.menu_item_id, l.quantity))))))) ∧
    (∀ p ∈ collect_requirements_for_lines db
        ((direct ++ comboLines).map (fun l => (l.menu_item_id, l.quantity))),
      ∀ ing, getIngredient db p.1 = some ing →
        ing.current_stock + EPSILON < p.2 →
        (⟨ing.name, round2 ing.current_stock, round2 p.2, ing.unit⟩ : Shortage) ∈
          shortage_rows db (collect_requirements_for_lines db
            ((direct ++ comboLines).map (fun l => (l.menu_item_id, l.quantity))))) := by
  constructor
  · have hreq : collect_order_requirements db
        { order_number := n
          status := .pending
          payment_status := .paid
          payment_method := some payload.payment_method
          total_amount := round2 (((direct ++ comboLines).map (·.line_total)).sum)
          inventory_deducted := false
          has_paid_at := true
          has_completed_at := false
          items := (direct ++ comboLines).map (fun l =>
            { menu_item_id := l.menu_item_id
              menu_item_name := l.menu_item_name
              quantity := l.quantity
              unit_price := l.unit_price
              line_total := l.line_total
              note := l.note }) } =
        collect_requirements_for_lines db
          ((direct ++ comboLines).map (fun l => (l.menu_item_id, l.quantity))) := by
      unfold collect_order_requirements
      rw [List.map_map]
      rfl
    have hded := @deduct_shortage_error db
      { order_number := n
        status := .pending
        payment_status := .paid
        payment_method := some payload.payment_method
        total_amount := round2 (((direct ++ comboLines).map (·.line_total)).sum)
        inventory_deducted := false
        has_paid_at := true
        has_completed_at := false
        items := (direct ++ comboLines).map (fun l =>
          { menu_item_id := l.menu_item_id
            menu_item_name := l.menu_item_name
            quantity := l.quantity
            unit_price := l.unit_price
            line_total := l.line_total
            note := l.note }) }
      rfl (by rw [hreq]; exact hshort)
    rw [hreq] at hded
    unfold create_order_txn
    simp only [create_order, hd, hcb]
    rw [if_neg hne]
    simp only [hauto, if_true, pay_order]
    rw [if_neg (by intro hh; cases hh)]
    rw [hded]
  · intro p hp ing hI hlt
    unfold shortage_rows
    apply List.mem_filterMap.mpr
    refine ⟨p, hp, ?_⟩
    rw [hI]
    simp only [hlt, if_true]

theorem create_order_shortage_atomic_witness :
    toastRequest.auto_pay = true ∧
      build_direct_lines lowStockDB toastRequest.items = .ok toastDirectLines ∧
      shortage_rows lowStockDB (collect_requirements_for_lines lowStockDB
        ((toastDirectLines ++ []).map (fun l : LineDict => (l.menu_item_id, l.quantity)))) ≠ [] ∧
      create_order_txn lowStockDB toastRequest (str "N8") =
        (lowStockDB, .error (.insufficientInventory (shortage_rows lowStockDB
          (collect_requirements_for_lines lowStockDB
            ((toastDirectLines ++ []).map (fun l : LineDict => (l.menu_item_id, l.quantity))))))) := by
  have hd : build_direct_lines lowStockDB toastRequest.items = .ok toastDirectLines := by
    simp [build_direct_lines, lowStockDB, toastRequest, toastDirectLines, getMenuItem,
      List.find?, Except.map]
    norm_num [round2, pyRound, round_eq]
  have hshort : shortage_rows lowStockDB (collect_requirements_for_lines lowStockDB
      ((toastDirectLines ++ []).map (fun l : LineDict => (l.menu_item_id, l.quantity)))) ≠ [] := by
    simp [shortage_rows, collect_requirements_for_lines, lowStockDB, toastDirectLines,
      getMenuItem, getIngredient, addReq, EPSILON, List.find?]
    norm_num
  exact ⟨rfl, hd, hshort,
    (create_order_shortage_atomic lowStockDB toastRequest (str "N8") toastDirectLines []
      rfl hd rfl (by decide) hshort).1⟩

theorem order_ref_ne_cancel_ref (n : Str) : str "ORDER:" ++ n ≠ str "CANCEL:" ++ n := by
  have ho : str "ORDER:" = 'O' :: str "RDER:" := by decide
  have hc : str "CANCEL:" = 'C' :: str "ANCEL:" := by decide
  rw [ho, hc, List.cons_append, List.cons_append]
  intro h
  injection h with h1 _
  exact absurd h1 (by decide)

theorem usage_movements_ref (n : Str) (reqs : List (ℕ × ℚ)) :
    ∀ m ∈ usage_movements n reqs, m.reference = some (str "ORDER:" ++ n) := by
  intro m hm
  obtain ⟨p, _, rfl⟩ := List.mem_map.mp hm
  rfl

theorem restore_movements_ref (n : Str) (reqs : List (ℕ × ℚ)) :
    ∀ m ∈ restore_movements n reqs, m.reference = some (str "CANCEL:" ++ n) := by
  intro m hm
  obtain ⟨p, _, rfl⟩ := List.mem_map.mp hm
  rfl

theorem filter_ref_nil {l : List StockMovement} {r : Str}
    (h : ∀ m ∈ l, m.reference ≠ some r) :
    l.filter (fun m => m.reference == some r) = [] := by
  rw [List.filter_eq_nil_iff]
  intro m hm
  simpa using h m hm

theorem filter_ref_self {l : List StockMovement} {r : Str}
    (h : ∀ m ∈ l, m.reference = some r) :
    l.filter (fun m => m.reference == some r) = l := by
  rw [List.filter_eq_self]
  intro m hm
  simpa using h m hm

theorem restore_eval (db : DB) (o' : Order)
    (hd : o'.inventory_deducted = true)
    (hfil : db.movements.filter
      (fun m => m.reference == some (str "CANCEL:" ++ o'.order_number)) = []) :
    restore_inventory_for_cancelled_order db o' =
      (applyMovs db (restore_movements o'.order_number (collect_order_requirements db o')),
        low_stock_rows
          (applyMovs db (restore_movements o'.order_number (collect_order_requirements db o')))) := by
  unfold restore_inventory_for_cancelled_order
  rw [if_neg (by simp [hd])]
  show (if 0 < (db.movements.filter
      (fun m => m.reference == some (str "CANCEL:" ++ o'.order_number))).length
    then (db, low_stock_rows db)
    else (applyMovs db (restore_movements o'.order_number (collect_order_requirements db o')),
      low_stock_rows
        (applyMovs db (restore_movements o'.order_number (collect_order_requirements db o'))))) = _
  rw [hfil]
  simp

theorem restore_noop_eval (db : DB) (o' : Order)
    (hd : o'.inventory_deducted = true)
    (hfil : 0 < (db.movements.filter
      (fun m => m.reference == some (str "CANCEL:" ++ o'.order_number))).length) :
    restore_inventory_for_cancelled_order db o' = (db, low_stock_rows db) := by
  unfold restore_inventory_for_cancelled_order
  rw [if_neg (by simp [hd])]
  show (if 0 < (db.movements.filter
      (fun m => m.reference == some (str "CANCEL:" ++ o'.order_number))).length
    then (db, low_stock_rows db)
    else (applyMovs db (restore_movements o'.order_number (collect_order_requirements db o')),
      low_stock_rows
        (applyMovs db (restore_movements o'.order_number (collect_order_requirements db o'))))) = _
  rw [if_pos hfil]

/-- C4: cancelling a deducted order (no prior `CANCEL:<n>` movement)
restores every ingredient's stock to exactly its pre-payment value, and a
second cancellation changes nothing. -/
theorem cancel_restores_stock (db : DB) (o : Order) (db1 : DB) (o1 : Order)
    (ls : List LowStockRow)
    (hnotyet : o.inventory_deducted = false)
    (hdeduct : deduct_inventory_for_order db o = .ok (db1, o1, ls))
    (hnoc : ∀ m ∈ db.movements, m.reference ≠ some (str "CANCEL:" ++ o.order_number))
    (htrans : OrderStatus.cancelled ∈ valid_transitions o1.status) :
    ∃ db2 o2, update_order_status db1 o1 .cancelled = .ok (db2, o2) ∧
      (∀ j, stockOf db2 j = stockOf db j) ∧
      update_order_status db2 o2 .cancelled = .ok (db2, o2) := by
  simp only [deduct_inventory_for_order, hnotyet, Bool.false_eq_true, if_false] at hdeduct
  split at hdeduct
  · cases hdeduct
  rename_i hs
  rw [not_not] at hs
  obtain ⟨h1, h2, _⟩ : applyMovs db (usage_movements o.order_number
      (collect_order_requirements db o)) = db1 ∧
      { o with inventory_deducted := true } = o1 ∧ _ = ls := by
    simpa using hdeduct
  subst h1
  subst h2
  set reqs := collect_order_requirements db o with hreqs
  set U := usage_movements o.order_number reqs with hU
  -- the cancelled order row
  set o2 : Order := { o with inventory_deducted := true, status := .cancelled } with ho2
  have hcond : ¬(¬ OrderStatus.cancelled ∈
      valid_transitions ({ o with inventory_deducted := true } : Order).status ∧
      OrderStatus.cancelled ≠ ({ o with inventory_deducted := true } : Order).status) :=
    fun hh => hh.1 htrans
  have hupd1 : update_order_status (applyMovs db U) { o with inventory_deducted := true }
      OrderStatus.cancelled =
      .ok ((restore_inventory_for_cancelled_order (applyMovs db U) o2).1, o2) := by
    unfold update_order_status
    rw [if_neg hcond]
    rfl
  -- the first restore: no CANCEL movement yet, so it emits the refunds
  have hfilter1 : ((applyMovs db U).movements.filter
      (fun m => m.reference == some (str "CANCEL:" ++ o.order_number))) = [] := by
    rw [movements_applyMovs, List.filter_append, filter_ref_nil hnoc, filter_ref_nil]
    · rfl
    · intro m hm
      rw [usage_movements_ref o.order_number reqs m hm]
      intro hsome
      exact order_ref_ne_cancel_ref o.order_number (Option.some.inj hsome)
  have hcollect2 : collect_order_requirements (applyMovs db U) o2 = reqs := by
    show collect_requirements_for_lines (applyMovs db U) _ = _
    rw [collect_applyMovs]
    rfl
  have hrest1 : restore_inventory_for_cancelled_order (applyMovs db U) o2 =
      (applyMovs (applyMovs db U) (restore_movements o.order_number reqs),
        low_stock_rows (applyMovs (applyMovs db U) (restore_movements o.order_number reqs))) := by
    rw [restore_eval (applyMovs db U) o2 rfl hfilter1, hcollect2]
  refine ⟨applyMovs (applyMovs db U) (restore_movements o.order_number reqs), o2, ?_, ?_, ?_⟩
  · rw [hupd1, hrest1]
  · -- stock restored exactly
    intro j
    rw [stockOf_applyMovs, stockOf_applyMovs]
    rw [movSum_restore _ _ _ (collect_order_keys_nodup db o)]
    rw [hU, movSum_usage _ _ _ (collect_order_keys_nodup db o)]
    cases stockOf db j with
    | none => rfl
    | some s => simp
  · -- second cancellation: transition allowed as a no-op, restore already done
    have hcond2 : ¬(¬ OrderStatus.cancelled ∈ valid_transitions o2.status ∧
        OrderStatus.cancelled ≠ o2.status) := by
      intro hh
      exact hh.2 rfl
    have hnoop : restore_inventory_for_cancelled_order
        (applyMovs (applyMovs db U) (restore_movements o.order_number reqs)) o2 =
        (applyMovs (applyMovs db U) (restore_movements o.order_number reqs),
          low_stock_rows
            (applyMovs (applyMovs db U) (restore_movements o.order_number reqs))) := by
      by_cases hreqsnil : reqs = []
      · rw [hreqsnil] at hrest1 ⊢
        exact hrest1
      · apply restore_noop_eval _ o2 rfl
        show 0 < ((applyMovs (applyMovs db U)
          (restore_movements o.order_number reqs)).movements.filter
            (fun m => m.reference == some (str "CANCEL:" ++ o.order_number))).length
        rw [movements_applyMovs, List.filter_append, hfilter1,
          filter_ref_self (restore_movements_ref o.order_number reqs)]
        simp only [List.nil_append]
        rw [List.length_pos]
        intro hnil
        apply hreqsnil
        unfold restore_movements at hnil
        exact List.map_eq_nil_iff.mp hnil
    unfold update_order_status
    rw [if_neg hcond2]
    show (Except.ok ((restore_inventory_for_cancelled_order
        (applyMovs (applyMovs db U) (restore_movements o.order_number reqs)) o2).1, o2) :
      Except SvcError (DB × Order)) = _
    rw [hnoop]

theorem cancel_restores_stock_witness :
    toastOrder.inventory_deducted = false ∧
      deduct_inventory_for_order invDB toastOrder = .ok (invDBAfter, toastOrderDeducted, []) ∧
      (∃ db2 o2, update_order_status invDBAfter toastOrderDeducted .cancelled = .ok (db2, o2) ∧
        (∀ j, stockOf db2 j = stockOf invDB j) ∧
        update_order_status db2 o2 .cancelled = .ok (db2, o2)) := by
  have hded : deduct_inventory_for_order invDB toastOrder =
      .ok (invDBAfter, toastOrderDeducted, []) := by
    simp [deduct_inventory_for_order, invDB, toastOrder, toastOrderDeducted, invDBAfter,
      collect_order_requirements, collect_requirements_for_lines, getMenuItem, getIngredient,
      addReq, shortage_rows, usage_movements, applyMovs, create_movement, applyMovTo,
      low_stock_rows, EPSILON, List.find?]
    norm_num
  exact ⟨rfl, hded, cancel_restores_stock invDB toastOrder invDBAfter toastOrderDeducted []
    rfl hded (by simp [invDB]) (by decide)⟩

/-- C9: closing an open shift aggregates exactly the paid orders whose
`paid_at` lies in the window and the refunded orders whose `updated_at`
does, into the claimed revenue, refund, expected-cash and difference
formulas, all rounded to cents. -/
theorem close_shift_spec (shifts : List ShiftSession) (orders : List OrdRow)
    (now : ℕ) (ac : ℚ) (notes : Option Str) (row out : ShiftSession)
    (hrow : get_open_shift shifts = some row)
    (hok : close_shift shifts orders now ac notes = .ok out) :
    out.total_revenue = round2 (((orders.filter (fun o =>
        match o.paid_at with
        | none => false
        | some t => row.opened_at ≤ t && t ≤ now && o.payment_status == .paid)).map
      (·.total_amount)).sum) ∧
    out.cash_revenue = round2 ((((orders.filter (fun o =>
        match o.paid_at with
        | none => false
        | some t => row.opened_at ≤ t && t ≤ now && o.payment_status == .paid)).filter
      (fun o => o.payment_method == some (str "cash"))).map (·.total_amount)).sum) ∧
    out.non_cash_revenue = round2 (out.total_revenue - out.cash_revenue) ∧
    out.refund_amount = round2 (((orders.filter (fun o =>
        row.opened_at ≤ o.updated_at && o.updated_at ≤ now
          && o.payment_status == .refunded)).map (·.total_amount)).sum) ∧
    out.expected_cash = round2 (row.opening_cash + out.cash_revenue) ∧
    out.actual_cash = some (round2 ac) ∧
    out.cash_difference = some (round2 (round2 ac - out.expected_cash)) ∧
    out.paid_order_count = (orders.filter (fun o =>
        match o.paid_at with
        | none => false
        | some t => row.opened_at ≤ t && t ≤ now && o.payment_status == .paid)).length := by
  simp only [close_shift, hrow] at hok
  obtain rfl : _ = out := by
    have h := Except.ok.inj hok
    exact h
  exact ⟨rfl, rfl, rfl, rfl, rfl, rfl, rfl, rfl⟩

theorem close_shift_spec_witness :
    get_open_shift [morningShift] = some morningShift ∧
      close_shift [morningShift] scenarioOrders 2 165 none = .ok morningShiftClosed ∧
      morningShiftClosed.expected_cash = 165 ∧ morningShiftClosed.cash_revenue = 65 ∧
      morningShiftClosed.non_cash_revenue = 40 ∧ morningShiftClosed.total_revenue = 105 ∧
      morningShiftClosed.cash_difference = some 0 ∧
      morningShiftClosed.total_revenue = round2 (((scenarioOrders.filter (fun o =>
        match o.paid_at with
        | none => false
        | some t => morningShift.opened_at ≤ t && t ≤ 2
            && o.payment_status == .paid)).map (·.total_amount)).sum) := by
  have hrow : get_open_shift [morningShift] = some morningShift := by decide
  have hok : close_shift [morningShift] scenarioOrders 2 165 none = .ok morningShiftClosed := by
    simp only [close_shift, hrow]
    simp [morningShift, morningShiftClosed, scenarioOrders, str]
    norm_num [round2, pyRound, round_eq]
  refine ⟨hrow, hok, rfl, rfl, rfl, rfl, rfl, ?_⟩
  exact (close_shift_spec [morningShift] scenarioOrders 2 165 none morningShift
    morningShiftClosed hrow hok).1

theorem mem_sortedUnionKeys (a b : List ℕ) (j : ℕ) :
    j ∈ sortedUnionKeys a b ↔ j ∈ a ∨ j ∈ b := by
  unfold sortedUnionKeys
  rw [(List.perm_insertionSort _ _).mem_iff, List.mem_dedup, List.mem_append]

/-- C5: for a deducted order, two successive amendment adjustments with
swapped previous/next item sets cancel exactly on every ingredient's
stock. -/
theorem amend_adjust_roundtrip (db : DB) (o : Order) (prev next : List (ℕ × ℕ))
    (db1 db2 : DB) (l1 l2 : List LowStockRow)
    (h1 : adjust_inventory_for_amended_order db o prev next = .ok (db1, l1))
    (h2 : adjust_inventory_for_amended_order db1 o next prev = .ok (db2, l2)) :
    ∀ j, stockOf db2 j = stockOf db j := by
  by_cases hd : ¬ o.inventory_deducted
  · simp only [adjust_inventory_for_amended_order, if_pos hd] at h1 h2
    obtain ⟨hdb1, _⟩ : db = db1 ∧ _ = l1 := by simpa using h1
    subst hdb1
    obtain ⟨hdb2, _⟩ : db = db2 ∧ _ = l2 := by simpa using h2
    subst hdb2
    intro j
    rfl
  · simp only [adjust_inventory_for_amended_order, if_neg hd] at h1 h2
    split at h1
    · cases h1
    rename_i hs1
    obtain ⟨hdb1, _⟩ : applyMovs db (amend_movements o.order_number
        (sortedUnionKeys ((collect_requirements_for_lines db prev).map Prod.fst)
          ((collect_requirements_for_lines db next).map Prod.fst))
        (collect_requirements_for_lines db prev)
        (collect_requirements_for_lines db next)) = db1 ∧ _ = l1 := by simpa using h1
    subst hdb1
    simp only [collect_applyMovs] at h2
    split at h2
    · cases h2
    rename_i hs2
    obtain ⟨hdb2, _⟩ : applyMovs _ (amend_movements o.order_number
        (sortedUnionKeys ((collect_requirements_for_lines db next).map Prod.fst)
          ((collect_requirements_for_lines db prev).map Prod.fst))
        (collect_requirements_for_lines db next)
        (collect_requirements_for_lines db prev)) = db2 ∧ _ = l2 := by simpa using h2
    subst hdb2
    intro j
    rw [stockOf_applyMovs, stockOf_applyMovs]
    set prevR := collect_requirements_for_lines db prev with hprevR
    set nextR := collect_requirements_for_lines db next with hnextR
    have hmem : j ∈ sortedUnionKeys (prevR.map Prod.fst) (nextR.map Prod.fst) ↔
        j ∈ sortedUnionKeys (nextR.map Prod.fst) (prevR.map Prod.fst) := by
      rw [mem_sortedUnionKeys, mem_sortedUnionKeys, or_comm]
    have hsum : movSum (amend_movements o.order_number
        (sortedUnionKeys (prevR.map Prod.fst) (nextR.map Prod.fst)) prevR nextR) j +
        movSum (amend_movements o.order_number
        (sortedUnionKeys (nextR.map Prod.fst) (prevR.map Prod.fst)) nextR prevR) j = 0 := by
      unfold amend_movements
      rw [movSum_filterMap _ (amend_movements_keyed o.order_number prevR nextR) _
        (sortedUnionKeys_nodup _ _) j]
      rw [movSum_filterMap _ (amend_movements_keyed o.order_number nextR prevR) _
        (sortedUnionKeys_nodup _ _) j]
      by_cases hj : j ∈ sortedUnionKeys (prevR.map Prod.fst) (nextR.map Prod.fst)
      · rw [if_pos hj, if_pos (hmem.mp hj)]
        have hneg : reqOf prevR j - reqOf nextR j = -(reqOf nextR j - reqOf prevR j) := by
          ring
        rw [hneg]
        generalize reqOf nextR j - reqOf prevR j = δ
        by_cases hgt : EPSILON < δ
        · have h2lt : -δ < -EPSILON := by linarith
          rw [if_pos hgt, if_neg (by linarith [epsilon_pos] : ¬ EPSILON < -δ), if_pos h2lt]
          show -δ + -(-δ) = 0
          ring
        · by_cases hlt : δ < -EPSILON
          · have h2gt : EPSILON < -δ := by linarith
            rw [if_neg hgt, if_pos hlt, if_pos h2gt]
            show -δ + -(-δ) = 0
            ring
          · rw [if_neg hgt, if_neg hlt, if_neg (by linarith : ¬ EPSILON < -δ),
              if_neg (by linarith : ¬ -δ < -EPSILON)]
            show (0 : ℚ) + 0 = 0
            norm_num
      · rw [if_neg hj, if_neg (fun hh => hj (hmem.mpr hh))]
        norm_num
    cases hstock : stockOf db j with
    | none => rfl
    | some s =>
        show some _ = some s
        congr 1
        show s + _ + _ = s
        linarith [hsum]

theorem amend_adjust_roundtrip_witness :
    adjust_inventory_for_amended_order invDB toastOrderDeducted [(1, 1)] [(1, 2)] =
        .ok (invDBAmendUp, []) ∧
      adjust_inventory_for_amended_order invDBAmendUp toastOrderDeducted [(1, 2)] [(1, 1)] =
        .ok (invDBAmendBack, []) ∧
      (∀ j, stockOf invDBAmendBack j = stockOf invDB j) := by
  have h1 : adjust_inventory_for_amended_order invDB toastOrderDeducted
      [(1, 1)] [(1, 2)] = .ok (invDBAmendUp, []) := by
    simp [adjust_inventory_for_amended_order, invDB, toastOrderDeducted, invDBAmendUp,
      collect_requirements_for_lines, getMenuItem, getIngredient, addReq, amend_shortages,
      amend_movements, reqOf, applyMovs, create_movement, applyMovTo,
      low_stock_rows, EPSILON, List.find?,
      show sortedUnionKeys [1] [1] = [1] by decide]
    norm_num [applyMovs, create_movement, applyMovTo, low_stock_rows,
      List.filterMap_cons, List.filterMap_nil, List.foldl_cons, List.foldl_nil]
  have h2 : adjust_inventory_for_amended_order invDBAmendUp toastOrderDeducted
      [(1, 2)] [(1, 1)] = .ok (invDBAmendBack, []) := by
    simp [adjust_inventory_for_amended_order, invDBAmendUp, toastOrderDeducted, invDBAmendBack,
      collect_requirements_for_lines, getMenuItem, getIngredient, addReq, amend_shortages,
      amend_movements, reqOf, applyMovs, create_movement, applyMovTo,
      low_stock_rows, EPSILON, List.find?,
      show sortedUnionKeys [1] [1] = [1] by decide]
    norm_num [applyMovs, create_movement, applyMovTo, low_stock_rows,
      List.filterMap_cons, List.filterMap_nil, List.foldl_cons, List.foldl_nil]
  exact ⟨h1, h2,
    amend_adjust_roundtrip invDB toastOrderDeducted [(1, 1)] [(1, 2)] invDBAmendUp
      invDBAmendBack [] [] h1 h2⟩

/-- C6: when the aggregated amendment (grouped by menu item id and
whitespace-normalized note) diffs empty against the order's current
lines, `amend_order` returns the unchanged order, an empty diff and an
empty low-stock list, with the session state untouched. -/
theorem amend_empty_diff_noop (db : DB) (o : Order) (payload : List OrderItemCreate)
    (lines : List AmendLine)
    (hstatus : ¬(o.status = .completed ∨ o.status = .cancelled))
    (hlines : build_amended_lines db payload = .ok lines)
    (hdiff : build_order_diff (snapshot_order_items o.items)
      (snapshot_amended_lines lines) = ⟨[], [], []⟩) :
    amend_order db o payload = .ok (db, o, ⟨[], [], []⟩, []) := by
  simp [amend_order, hstatus, hlines, hdiff]

theorem amend_empty_diff_noop_witness :
    (¬(latteOrder.status = .completed ∨ latteOrder.status = .cancelled)) ∧
      build_amended_lines latteDB latteResubmit = .ok latteLines ∧
      build_order_diff (snapshot_order_items latteOrder.items)
        (snapshot_amended_lines latteLines) = ⟨[], [], []⟩ ∧
      amend_order latteDB latteOrder latteResubmit =
        .ok (latteDB, latteOrder, ⟨[], [], []⟩, []) :=
  ⟨by decide, by decide, by decide,
    amend_empty_diff_noop latteDB latteOrder latteResubmit latteLines
      (by decide) (by decide) (by decide)⟩

/-- Every line produced by `upsertAmend` keeps the catalog-price invariant:
its unit price is the current price of an active menu item it references. -/
theorem upsertAmend_price (db : DB) (acc : List AmendLine) (mi : MenuItem)
    (note : Option Str) (qty : ℕ)
    (hacc : ∀ l ∈ acc, ∃ m, getMenuItem db l.menu_item_id = some m ∧
      m.is_active = true ∧ l.unit_price = m.price)
    (hmi : getMenuItem db mi.id = some mi) (hact : mi.is_active = true) :
    ∀ l ∈ upsertAmend acc mi note qty, ∃ m, getMenuItem db l.menu_item_id = some m ∧
      m.is_active = true ∧ l.unit_price = m.price := by
  induction acc with
  | nil =>
      intro l hl
      simp [upsertAmend] at hl
      subst hl
      exact ⟨mi, hmi, hact, rfl⟩
  | cons a t ih =>
      intro l hl
      rw [upsertAmend] at hl
      by_cases hc : a.menu_item_id = mi.id ∧ a.note = note
      · rw [if_pos hc] at hl
        rcases List.mem_cons.mp hl with h | h
        · subst h
          obtain ⟨m, h1, h2, h3⟩ := hacc a (List.mem_cons_self a t)
          exact ⟨m, h1, h2, h3⟩
        · exact hacc l (List.mem_cons_of_mem a h)
      · rw [if_neg hc] at hl
        rcases List.mem_cons.mp hl with h | h
        · exact hacc l (List.mem_cons.mpr (Or.inl h))
        · exact ih (fun x hx => hacc x (List.mem_cons_of_mem a hx)) l h

/-- The aggregation loop of `_build_amended_lines` preserves the
catalog-price invariant on its accumulator. -/
theorem build_amended_lines_aux_price (db : DB) (items : List OrderItemCreate) :
    ∀ (acc lines : List AmendLine),
    (∀ l ∈ acc, ∃ m, getMenuItem db l.menu_item_id = some m ∧
      m.is_active = true ∧ l.unit_price = m.price) →
    build_amended_lines_aux db items acc = .ok lines →
    ∀ l ∈ lines, ∃ m, getMenuItem db l.menu_item_id = some m ∧
      m.is_active = true ∧ l.unit_price = m.price := by
  induction items with
  | nil =>
      intro acc lines hacc hok
      rw [build_amended_lines_aux] at hok
      cases hok
      exact hacc
  | cons it rest ih =>
      intro acc lines hacc hok
      rw [build_amended_lines_aux] at hok
      split at hok
      · cases hok
      · rename_i mi hfind
        split at hok
        · cases hok
        · rename_i hact
          have hact' : mi.is_active = true := not_not.mp hact
          have hid : mi.id = it.menu_item_id := by
            have hfind' := hfind
            rw [getMenuItem] at hfind'
            simpa using List.find?_some hfind'
          have hmi : getMenuItem db mi.id = some mi := by rw [hid]; exact hfind
          exact ih _ lines (upsertAmend_price db acc mi _ _ hacc hmi hact') hok

/-- Every line returned by `_build_amended_lines` is priced at the current
catalog price of an active menu item. -/
theorem build_amended_lines_price (db : DB) (items : List OrderItemCreate)
    (lines : List AmendLine)
    (hok : build_amended_lines db items = .ok lines) :
    ∀ l ∈ lines, ∃ m, getMenuItem db l.menu_item_id = some m ∧
      m.is_active = true ∧ l.unit_price = m.price := by
  rw [build_amended_lines] at hok
  cases haux : build_amended_lines_aux db items [] with
  | error e => rw [haux] at hok; cases hok
  | ok acc =>
      rw [haux] at hok
      simp only [Except.map] at hok
      cases hok
      intro l hl
      have hmem : l ∈ acc :=
        (List.Perm.mem_iff (List.perm_insertionSort _ acc)).mp hl
      exact build_amended_lines_aux_price db items [] acc (by simp) haux l hmem

/-- Evaluation of the repricing example: the amendment keeps both
combo-priced lines at quantity 1 and doubles the direct line, and
`amend_order` reprices everything at catalog, total 65 instead of 70. -/
theorem reprice_eval :
    amend_order repriceDB repriceOrder repriceRequest =
      .ok (repriceDB, repriceOrderAmended, repriceDiff, []) := by
  have hstatus : ¬(repriceOrder.status = .completed ∨ repriceOrder.status = .cancelled) := by
    decide
  have hbl : build_amended_lines repriceDB repriceRequest = .ok repriceLines := by decide
  have hdiff : build_order_diff (snapshot_order_items repriceOrder.items)
      (snapshot_amended_lines repriceLines) = repriceDiff := by decide
  have hfull : ¬(repriceDiff.added = [] ∧ repriceDiff.removed = [] ∧
      repriceDiff.quantity_changed = []) := by decide
  have hadj : adjust_inventory_for_amended_order repriceDB repriceOrder
      (repriceOrder.items.map (fun it => (it.menu_item_id, it.quantity)))
      (repriceLines.map (fun l => (l.menu_item_id, l.quantity))) =
      .ok (repriceDB, []) := by decide
  have hrep : replace_order_items repriceOrder repriceLines = repriceOrderAmended := by
    simp [replace_order_items, repriceOrder, repriceLines, repriceOrderAmended]
    norm_num [round2, pyRound, round_eq]
  simp [amend_order, hstatus, hbl, hdiff, hfull, hadj, hrep]

/-- C10: for every amendment accepted with a non-empty diff, every line of
the amended order is priced at the menu item's current catalog price
(`unit_price` equals the active item's price, `line_total` is price times
quantity) and `total_amount` is the rounded sum of these line totals; in
the concrete example, the two combo-allocated lines (bundle prices 60 and
0 against catalog 40 and 5) keep their quantities yet are repriced at
catalog, moving the total from 70 to 65. -/
theorem amend_reprices_at_catalog (db : DB) (o : Order) (payload : List OrderItemCreate)
    (db' : DB) (o' : Order) (diff : OrderDiffOut) (low : List LowStockRow)
    (hok : amend_order db o payload = .ok (db', o', diff, low))
    (hch : ¬(diff.added = [] ∧ diff.removed = [] ∧ diff.quantity_changed = [])) :
    ((∀ it ∈ o'.items, ∃ mi, getMenuItem db it.menu_item_id = some mi ∧
        mi.is_active = true ∧ it.unit_price = mi.price ∧
        it.line_total = mi.price * (it.quantity : ℚ)) ∧
      o'.total_amount = round2 ((o'.items.map (·.line_total)).sum)) ∧
    (amend_order repriceDB repriceOrder repriceRequest =
        .ok (repriceDB, repriceOrderAmended, repriceDiff, []) ∧
      repriceOrder.items.map (fun it => (it.menu_item_id, it.quantity)) =
        [(2, 1), (3, 1), (1, 1)] ∧
      repriceOrderAmended.items.map (fun it => (it.menu_item_id, it.quantity)) =
        [(1, 2), (2, 1), (3, 1)] ∧
      repriceOrder.items.map (fun it => (it.menu_item_id, it.unit_price, it.line_total)) =
        [(2, 60, 60), (3, 0, 0), (1, 10, 10)] ∧
      repriceOrderAmended.items.map (fun it => (it.menu_item_id, it.unit_price, it.line_total)) =
        [(1, 10, 20), (2, 40, 40), (3, 5, 5)] ∧
      repriceOrder.total_amount = 70 ∧ repriceOrderAmended.total_amount = 65 ∧
      repriceOrderAmended.total_amount ≠ repriceOrder.total_amount) := by
  constructor
  · rw [amend_order] at hok
    split at hok
    · cases hok
    · split at hok
      · cases hok
      · rename_i amended_lines hbl
        simp only [] at hok
        split at hok
        · rename_i hnoop
          cases hok
          exact absurd hnoop hch
        · split at hok
          · cases hok
          · cases hok
            constructor
            · intro it hit
              simp only [replace_order_items] at hit
              rw [List.mem_map] at hit
              obtain ⟨l, hl, rfl⟩ := hit
              obtain ⟨m, h1, h2, h3⟩ := build_amended_lines_price db payload amended_lines hbl l hl
              exact ⟨m, h1, h2, h3, by rw [h3]⟩
            · rfl
  · refine ⟨reprice_eval, by decide, by decide, ?_, ?_, rfl, rfl, by norm_num [repriceOrder, repriceOrderAmended]⟩
    · norm_num [repriceOrder]
    · norm_num [repriceOrderAmended]

theorem amend_reprices_at_catalog_witness :
    amend_order repriceDB repriceOrder repriceRequest =
        .ok (repriceDB, repriceOrderAmended, repriceDiff, []) ∧
      ¬(repriceDiff.added = [] ∧ repriceDiff.removed = [] ∧
        repriceDiff.quantity_changed = []) ∧
      (∀ it ∈ repriceOrderAmended.items, ∃ mi,
        getMenuItem repriceDB it.menu_item_id = some mi ∧ mi.is_active = true ∧
        it.unit_price = mi.price ∧ it.line_total = mi.price * (it.quantity : ℚ)) ∧
      repriceOrderAmended.total_amount =
        round2 ((repriceOrderAmended.items.map (·.line_total)).sum) :=
  ⟨reprice_eval, by decide,
    (amend_reprices_at_catalog repriceDB repriceOrder repriceRequest repriceDB
        repriceOrderAmended repriceDiff [] reprice_eval (by decide)).1.1,
    (amend_reprices_at_catalog repriceDB repriceOrder repriceRequest repriceDB
        repriceOrderAmended repriceDiff [] reprice_eval (by decide)).1.2⟩

end POS
